import Mathlib

/-!
Verification of the transaction-manager core of the dbtoy relational database.

The executable definitions below are a shallow embedding of the Rust source,
chiefly `src/transaction_manager.rs`.  Components of the repository whose
defining files are not part of the provided sources (the MVCC manager, lock
manager, WAL, savepoint manager, error and result enums, SQL AST nodes other
than those in `src/sql`) are modelled from the specification; each such
definition says so in its doc comment.
-/

deriving instance DecidableEq for Except

namespace Reef

/-- Modelled from the spec: SQL data values (`data_value.rs` is not among the
provided sources).  The spec lists integer, string, boolean, date and timestamp
literals; the claims exercise integer, text and boolean values, so the model
carries those variants.  Machine integers are modelled as `Int`; no arithmetic
is performed on them, only comparison and printing. -/
inductive DataValue where
  | integer (n : Int)
  | text (s : String)
  | boolean (b : Bool)
deriving DecidableEq, Repr

/-- Modelled from the spec: rank of a variant, used for the cross-variant part
of the derived natural ordering on values. -/
def DataValue.rank : DataValue → Nat
  | .integer _ => 0
  | .text _ => 1
  | .boolean _ => 2

/-- Modelled from the spec: the natural ordering on typed values used by ORDER
BY (the source derives `Ord` on its `DataValue` enum): same-variant values
compare by payload, distinct variants by declaration rank. -/
def DataValue.cmp : DataValue → DataValue → Ordering
  | .integer a, .integer b => compare a b
  | .text a, .text b => compare a b
  | .boolean a, .boolean b => compare a b
  | a, b => compare a.rank b.rank

/-- Modelled from the spec: SQL column data types. -/
inductive DataType where
  | integer
  | float
  | text
  | boolean
  | date
  | timestamp
  | tsvector
deriving DecidableEq, Repr

/-- Modelled from the spec: column constraints. -/
inductive Constraint where
  | primaryKey
  | notNull
  | unique
deriving DecidableEq, Repr

/-- Modelled from the spec: a column definition holds name, data type and
constraints (`column_def.rs` is not among the provided sources). -/
structure ColumnDef where
  name : String
  data_type : DataType
  constraints : List Constraint
deriving DecidableEq, Repr

/-- Modelled from the spec: a column reference in a select list or ORDER BY,
with an optional table qualifier (`column.rs` is not among the provided
sources; the `column_type` field carries no extra information for the claims). -/
structure Column where
  table : Option String
  name : String
deriving DecidableEq, Repr

/-- From `src/sql/clauses/join_clause.rs`: a table reference with an optional
alias. -/
structure TableReference where
  name : String
  /-- The source calls this field `alias`, a Lean keyword. -/
  aliasName : Option String
deriving DecidableEq, Repr

/-- From `src/sql/column_value_pair.rs`: one side of an equi-join condition. -/
structure ColumnValuePair where
  column_name : String
  table_name : String
deriving DecidableEq, Repr

/-- From `src/sql/clauses/join_clause.rs`: the supported join kinds. -/
inductive JoinType where
  | inner
  | left
  | right
  | full
deriving DecidableEq, Repr

/-- From `src/sql/clauses/join_clause.rs`: a join clause. -/
structure JoinClause where
  join_type : JoinType
  table_ref : TableReference
  /-- The source calls this field `on`, a Lean keyword. -/
  onCond : ColumnValuePair × ColumnValuePair
deriving DecidableEq, Repr

/-- Modelled from the spec: ORDER BY direction. -/
inductive OrderDirection where
  | asc
  | desc
deriving DecidableEq, Repr

/-- Modelled from the spec: one ORDER BY key. -/
structure OrderByClause where
  column : Column
  direction : OrderDirection
deriving DecidableEq, Repr

/-- Modelled from the spec: the binary comparison operators of a Regular WHERE
condition (`operator.rs` is not among the provided sources). -/
inductive Op where
  | eq
  | notEq
  | lt
  | gt
  | ltEq
  | gtEq
deriving DecidableEq, Repr

/-- Modelled from the spec: apply a binary operator, comparing a row cell to a
literal by the natural ordering on typed values. -/
def Op.evaluate (op : Op) (a b : DataValue) : Bool :=
  match op, DataValue.cmp a b with
  | .eq, .eq => true
  | .eq, _ => false
  | .notEq, .eq => false
  | .notEq, _ => true
  | .lt, .lt => true
  | .lt, _ => false
  | .gt, .gt => true
  | .gt, _ => false
  | .ltEq, .gt => false
  | .ltEq, _ => true
  | .gtEq, .lt => false
  | .gtEq, _ => true

/-- Modelled from the spec: a Regular WHERE condition with optional table
qualifier; field names follow the source's uses (`clause.table`,
`clause.col_name`, `clause.operator`, `clause.value`). -/
structure WhereCond where
  table : Option String
  col_name : String
  operator : Op
  value : DataValue
deriving DecidableEq, Repr

/-- Modelled from the spec: recursive WHERE clause type
`Regular | And | Or | FTS`. -/
inductive WhereType where
  | regular (clause : WhereCond)
  | and (l r : WhereType)
  | or (l r : WhereType)
  | fts
deriving DecidableEq, Repr

/-- From `src/sql/statements/insert.rs`. -/
inductive InsertStatement where
  | intoTable (table : String) (values : List DataValue)
deriving DecidableEq, Repr

/-- Modelled from the spec: UPDATE statement with SET pairs and optional WHERE
(shape taken from the pattern `UpdateStatement::UpdateTable(table_name,
updates, where_clause)` matched in `src/transaction_manager.rs`). -/
inductive UpdateStatement where
  | updateTable (table : String) (updates : List (String × DataValue))
      (whereClause : Option WhereType)
deriving DecidableEq, Repr

/-- Modelled from the spec: SELECT statement (shape taken from the pattern
`SelectStatement::FromTable(table_ref, columns, where_clause, joins,
order_by)` matched in `src/transaction_manager.rs`). -/
inductive SelectStatement where
  | fromTable (table_ref : TableReference) (columns : List Column)
      (whereClause : Option WhereType) (joins : List JoinClause)
      (order_by : List OrderByClause)
deriving DecidableEq, Repr

/-- Modelled from the spec: DELETE statement (shape from the pattern
`DeleteStatement::FromTable(table_name, _)` in the source). -/
inductive DeleteStatement where
  | fromTable (table : String) (whereClause : Option WhereType)
deriving DecidableEq, Repr

/-- Modelled from the spec: CREATE TABLE statement (shape from the pattern
`CreateStatement::Table(table_name, _)` in the source). -/
inductive CreateStatement where
  | table (name : String) (columns : List ColumnDef)
deriving DecidableEq, Repr

/-- Modelled from the spec: the statement classification dispatched by the
transaction manager.  Statement kinds whose payload the claims never inspect
carry only a table name. -/
inductive Statement where
  | create (stmt : CreateStatement)
  | insert (stmt : InsertStatement)
  | update (stmt : UpdateStatement)
  | delete (stmt : DeleteStatement)
  | drop (table : String)
  | select (stmt : SelectStatement)
  | createIndex (table : String)
  | dropIndex (table : String)
  | alter (table : String)
deriving DecidableEq, Repr

/-- Modelled from the spec: the error taxonomy of section 7 (`error.rs` is not
among the provided sources). -/
inductive ReefDBError where
  | tableNotFound (name : String)
  | columnNotFound (name : String)
  | transactionNotFound (id : Nat)
  | transactionNotActive
  | lockConflict (table : String)
  | deadlock
  | writeConflict
  | serializationFailure
  | savepointNotFound (name : String)
  | walIoError
  | lockAcquisitionFailed (reason : String)
  | invalidOperation (msg : String)
  | other (msg : String)
deriving DecidableEq, Repr

/-- Modelled from the spec: statement results (`result.rs` is not among the
provided sources).  A select result carries the `(original row index, row)`
pairs; the presentation-only `ColumnInfo` metadata is not modelled. -/
inductive ReefDBResult where
  | select (rows : List (Nat × List DataValue))
  | update (count : Nat)
  | done
deriving DecidableEq, Repr

/-- Modelled from the spec: isolation levels. -/
inductive IsolationLevel where
  | readCommitted
  | repeatableRead
  | serializable
deriving DecidableEq, Repr

/-- Modelled from the spec: transaction lifecycle states. -/
inductive TransactionState where
  | active
  | committed
  | rolledBack
deriving DecidableEq, Repr

/-- Modelled from the spec: lock modes. -/
inductive LockType where
  | shared
  | exclusive
deriving DecidableEq, Repr

/-- Modelled from the spec: WAL operations. -/
inductive WALOperation where
  | begin
  | commit
  | rollback
  | insert
  | update
  | delete
deriving DecidableEq, Repr

/-- Modelled from the spec: a WAL entry.  The source also stores a
`SystemTime` timestamp, an environmental quantity no claim inspects, so it is
omitted here. -/
structure WALEntry where
  transaction_id : Nat
  operation : WALOperation
  table_name : String
  data : List Nat
deriving DecidableEq, Repr

/-- Modelled from the spec: the MVCC row-key format
`table/col_index/primary_key_value` built by `KeyFormat::row`
(`key_format.rs` is not among the provided sources). -/
def KeyFormat.row (table : String) (colIndex : Nat) (pk : String) : String :=
  table ++ "/" ++ toString colIndex ++ "/" ++ pk

/-- Table storage: mapping from table name to schema and rows, as required of
the storage collaborator in `src/storage/mod.rs`.  Modelled as an association
list. -/
abbrev TableStorage := List (String × (List ColumnDef × List (List DataValue)))

/-- Look a table up by name (the collaborator's `get_table_ref`). -/
def TableStorage.get_table_ref (s : TableStorage) (name : String) :
    Option (List ColumnDef × List (List DataValue)) :=
  (List.find? (fun p => p.1 = name) s).map (·.2)

/-- Modelled from the spec, section 4.4: an MVCC version. -/
structure MVCCVersion where
  tx_id : Nat
  begin_ts : Nat
  /-- `none` stands for the infinite end timestamp. -/
  end_ts : Option Nat
  data : List DataValue
  committed : Bool
deriving DecidableEq, Repr

/-- Modelled from the spec, section 4.4: the MVCC manager state: timestamp
counter, active-transaction read timestamps, and per-key version chains. -/
structure MVCCState where
  timestamp_counter : Nat
  active_tx : List (Nat × Nat)
  versions : List (String × List MVCCVersion)
deriving DecidableEq, Repr

/-- Version chain of a key (empty when the key is unknown). -/
def MVCCState.chainOf (m : MVCCState) (key : String) : List MVCCVersion :=
  ((List.find? (fun p => p.1 = key) m.versions).map (·.2)).getD []

/-- Read timestamp recorded for a transaction. -/
def MVCCState.readTs (m : MVCCState) (tx : Nat) : Nat :=
  ((List.find? (fun p => p.1 = tx) m.active_tx).map (·.2)).getD 0

/-- Modelled from the spec, section 4.4: `is_active`. -/
def MVCCState.is_active (m : MVCCState) (tx : Nat) : Bool :=
  (List.find? (fun p => p.1 = tx) m.active_tx).isSome

/-- Append a version to a key's chain (creating the chain if absent). -/
def MVCCState.appendVersion (m : MVCCState) (key : String) (v : MVCCVersion) :
    MVCCState :=
  if (List.find? (fun p => p.1 = key) m.versions).isSome then
    { m with versions :=
        m.versions.map (fun p => if p.1 = key then (p.1, p.2 ++ [v]) else p) }
  else
    { m with versions := m.versions ++ [(key, [v])] }

/-- Modelled from the spec, section 4.4: `begin_transaction` records the read
timestamp `++timestamp_counter`. -/
def MVCCState.begin_transaction (m : MVCCState) (tx : Nat) : MVCCState :=
  { m with
    timestamp_counter := m.timestamp_counter + 1
    active_tx := (tx, m.timestamp_counter + 1) :: m.active_tx }

/-- Modelled from the spec, section 4.4: `write` appends a new uncommitted
version; if a prior uncommitted version by a different live transaction exists
on the key it fails with `WriteConflict`. -/
def MVCCState.write (m : MVCCState) (tx : Nat) (key : String)
    (data : List DataValue) : Except ReefDBError MVCCState :=
  if (m.chainOf key).any
      (fun v => !v.committed && v.tx_id ≠ tx && m.is_active v.tx_id) then
    .error .writeConflict
  else
    .ok (m.appendVersion key
      { tx_id := tx, begin_ts := m.readTs tx, end_ts := none
        data := data, committed := false })

/-- Modelled from the spec, section 4.4: the visibility rule for reader `tx`
at read timestamp `rts`. -/
def MVCCVersion.visibleTo (v : MVCCVersion) (tx rts : Nat) : Bool :=
  (v.committed && v.begin_ts ≤ rts &&
    (match v.end_ts with | none => true | some e => rts < e)) || v.tx_id == tx

/-- Newest version (by begin timestamp, later chain entries winning ties). -/
def newestVersion (chain : List MVCCVersion) : Option MVCCVersion :=
  chain.foldl
    (fun acc v =>
      match acc with
      | none => some v
      | some w => if w.begin_ts ≤ v.begin_ts then some v else some w)
    none

/-- Modelled from the spec, section 4.4: `read_committed`: newest visible
version for the reader, own uncommitted writes included; for the system reader
`tx = 0`, the globally newest committed version. -/
def MVCCState.read_committed (m : MVCCState) (tx : Nat) (key : String) :
    Option (List DataValue) :=
  let chain := m.chainOf key
  if tx = 0 then
    (newestVersion (chain.filter (·.committed))).map (·.data)
  else
    let rts := m.readTs tx
    (newestVersion (chain.filter (fun v => v.visibleTo tx rts))).map (·.data)

/-- Modelled from the spec, section 4.4: `read_uncommitted`: the newest
version regardless of commit status. -/
def MVCCState.read_uncommitted (m : MVCCState) (key : String) :
    Option (List DataValue) :=
  (newestVersion (m.chainOf key)).map (·.data)

/-- Modelled from the spec, section 4.4: the first-committer-wins conflict
test used by `commit`: some key written by `tx` also carries a committed
version by another transaction with a begin timestamp past `tx`'s read
timestamp. -/
def MVCCState.commitConflict (m : MVCCState) (tx : Nat) : Bool :=
  m.versions.any (fun p =>
    p.2.any (fun v => v.tx_id == tx) &&
    p.2.any (fun w => w.tx_id ≠ tx && w.committed && m.readTs tx < w.begin_ts))

/-- Modelled from the spec, section 4.4: `commit` marks the transaction's
versions committed and closes superseded committed versions at the commit
timestamp; on a first-committer-wins conflict it fails with
`SerializationFailure`. -/
def MVCCState.commit (m : MVCCState) (tx : Nat) : Except ReefDBError MVCCState :=
  if m.commitConflict tx then
    .error .serializationFailure
  else
    let commitTs := m.timestamp_counter + 1
    .ok { m with
      timestamp_counter := commitTs
      active_tx := m.active_tx.filter (fun p => p.1 ≠ tx)
      versions := m.versions.map (fun p =>
        if p.2.any (fun v => v.tx_id == tx) then
          (p.1, p.2.map (fun v =>
            if v.tx_id = tx then { v with committed := true }
            else if v.committed && v.end_ts = none then
              { v with end_ts := some commitTs }
            else v))
        else p) }

/-- Modelled from the spec, section 4.4: `rollback` drops the transaction's
uncommitted versions. -/
def MVCCState.rollback (m : MVCCState) (tx : Nat) : MVCCState :=
  { m with
    active_tx := m.active_tx.filter (fun p => p.1 ≠ tx)
    versions := m.versions.map (fun p =>
      (p.1, p.2.filter (fun v => !(v.tx_id = tx && !v.committed)))) }

/-- A row cell.  The source indexes rows directly (`row_data[idx]`, panicking
out of bounds); the embedding totalizes with a default value, and theorems
whose meaning depends on the cell carry the bound as a hypothesis. -/
def cellAt (row : List DataValue) (idx : Nat) : DataValue :=
  row.getD idx (DataValue.integer 0)

/-- From `src/transaction_manager.rs`, `evaluate_where_clause`: the
single-table WHERE evaluator.  For a Regular condition the three qualifier
cases (matching table, non-matching table, no table) all search the whole
schema by column name, exactly as in the source. -/
def evaluate_where_clause (whereClause : WhereType) (row_data : List DataValue)
    (schema : List ColumnDef) (table_name : String) : Bool :=
  match whereClause with
  | .regular clause =>
    let col_idx :=
      match clause.table with
      | some clause_table =>
        if clause_table = table_name then
          schema.findIdx? (fun c => c.name = clause.col_name)
        else
          schema.findIdx? (fun c => c.name = clause.col_name)
      | none =>
        schema.findIdx? (fun c => c.name = clause.col_name)
    match col_idx with
    | some idx => clause.operator.evaluate (cellAt row_data idx) clause.value
    | none => false
  | .fts => false
  | .and l r =>
    evaluate_where_clause l row_data schema table_name &&
    evaluate_where_clause r row_data schema table_name
  | .or l r =>
    evaluate_where_clause l row_data schema table_name ||
    evaluate_where_clause r row_data schema table_name

/-- From `src/transaction_manager.rs`, `evaluate_join_condition`: resolve both
sides of the equi-join condition and compare for equality. -/
def resolveJoinValue (pair : ColumnValuePair) (left_data : List DataValue)
    (left_schema : List ColumnDef) (right_data : List DataValue)
    (right_schema : List ColumnDef) (left_table right_table : String) :
    Option DataValue :=
  if pair.table_name = "" ∨ pair.table_name = left_table then
    (left_schema.findIdx? (fun c => c.name = pair.column_name)).map
      (cellAt left_data)
  else if pair.table_name = right_table then
    (right_schema.findIdx? (fun c => c.name = pair.column_name)).map
      (cellAt right_data)
  else none

/-- From `src/transaction_manager.rs`, `evaluate_join_condition`. -/
def evaluate_join_condition (condition : ColumnValuePair × ColumnValuePair)
    (left_data : List DataValue) (left_schema : List ColumnDef)
    (right_data : List DataValue) (right_schema : List ColumnDef)
    (left_table right_table : String) : Bool :=
  match resolveJoinValue condition.1 left_data left_schema right_data
          right_schema left_table right_table,
        resolveJoinValue condition.2 left_data left_schema right_data
          right_schema left_table right_table with
  | some l, some r => l == r
  | _, _ => false

/-- Joined table data as gathered by the SELECT path: the join clause together
with the joined table's schema and rows. -/
abbrev JoinedTables := List (JoinClause × (List ColumnDef × List (List DataValue)))

/-- From `src/transaction_manager.rs` lines 675-688: the `(schema_start,
schema_len)` section computed for a qualified column in the joined WHERE path:
starting at the base schema length, accumulate joined schema lengths until the
named table is found; an unknown table yields length 0 past all sections. -/
def whereSection (start : Nat) (joined : JoinedTables) (clause_table : String) :
    Nat × Nat :=
  match joined with
  | [] => (start, 0)
  | (join_info, (join_schema, _)) :: rest =>
    if join_info.table_ref.name = clause_table then (start, join_schema.length)
    else whereSection (start + join_schema.length) rest clause_table

/-- From `src/transaction_manager.rs` lines 675-688: the schema section owned
by a qualified table in the joined WHERE path: the base table owns `(0,
base_len)`, a joined table its slice per `whereSection`. -/
def whereSectionOf (clause_table base_name : String) (base_len : Nat)
    (joined : JoinedTables) : Nat × Nat :=
  if clause_table = base_name then (0, base_len)
  else whereSection base_len joined clause_table

/-- From `src/transaction_manager.rs` lines 673-703: column resolution for a
top-level Regular condition in the joined WHERE path, including the
schema-boundary safety check and the restriction of the name search to the
named table's slice of the combined schema. -/
def joinedWhereColIdx (clauseTable : Option String) (col_name : String)
    (base_name : String) (base_len : Nat) (joined : JoinedTables)
    (combined_schema : List ColumnDef) : Option Nat :=
  match clauseTable with
  | some clause_table =>
    let sec := whereSectionOf clause_table base_name base_len joined
    if combined_schema.length ≤ sec.1 then none
    else
      let stop := min (sec.1 + sec.2) combined_schema.length
      (((combined_schema.drop sec.1).take (stop - sec.1)).findIdx?
          (fun c => c.name = col_name)).map (· + sec.1)
  | none => combined_schema.findIdx? (fun c => c.name = col_name)

/-- From `src/transaction_manager.rs` lines 668-726: the WHERE check applied
to a combined row inside the join loop.  A top-level Regular condition uses
the section-restricted resolution; And/Or delegate to the lenient
`evaluate_where_clause`; FTS is false. -/
def joinedWhereEval (whereClause : Option WhereType)
    (combined_row : List DataValue) (combined_schema : List ColumnDef)
    (base_name : String) (base_len : Nat) (joined : JoinedTables) : Bool :=
  match whereClause with
  | none => true
  | some wc =>
    match wc with
    | .regular clause =>
      match joinedWhereColIdx clause.table clause.col_name base_name base_len
              joined combined_schema with
      | some idx => clause.operator.evaluate (cellAt combined_row idx) clause.value
      | none => false
    | .and l r =>
      evaluate_where_clause l combined_row combined_schema base_name &&
      evaluate_where_clause r combined_row combined_schema base_name
    | .or l r =>
      evaluate_where_clause l combined_row combined_schema base_name ||
      evaluate_where_clause r combined_row combined_schema base_name
    | .fts => false

/-- From `src/transaction_manager.rs`, `sort_results` lines 447-472: resolve
an ORDER BY column to an index.  The source's closure for a qualified joined
column adds `schema.len()` where `schema` is the base schema, and the closure
for an unqualified joined column adds the joined table's own schema length;
both quirks are reproduced exactly. -/
def sortKeyColIdx (col : Column) (schema : List ColumnDef)
    (table_name : String) (joined_tables : JoinedTables) : Option Nat :=
  match col.table with
  | some table =>
    if table = table_name then
      schema.findIdx? (fun c => c.name = col.name)
    else
      ((joined_tables.find? (fun p => p.1.table_ref.name = table)).bind
        (fun p => p.2.1.findIdx? (fun c => c.name = col.name))).map
        (· + schema.length)
  | none =>
    (schema.findIdx? (fun c => c.name = col.name)).orElse (fun _ =>
      joined_tables.findSome? (fun p =>
        (p.2.1.findIdx? (fun c => c.name = col.name)).map (· + p.2.1.length)))

/-- From `src/transaction_manager.rs`, `sort_results` lines 443-487: the
multi-key comparator.  A key whose column does not resolve, or whose index is
out of bounds for either row, is skipped. -/
def sortCmp (order_by : List OrderByClause) (schema : List ColumnDef)
    (table_name : String) (joined_tables : JoinedTables)
    (a b : Nat × List DataValue) : Ordering :=
  match order_by with
  | [] => .eq
  | order_clause :: rest =>
    let next := sortCmp rest schema table_name joined_tables a b
    match sortKeyColIdx order_clause.column schema table_name joined_tables with
    | some idx =>
      if idx < a.2.length ∧ idx < b.2.length then
        let c := DataValue.cmp (cellAt a.2 idx) (cellAt b.2 idx)
        if c ≠ .eq then
          match order_clause.direction with
          | .desc => c.swap
          | .asc => c
        else next
      else next
    | none => next

/-- The ordering predicate induced by the comparator, as used by a sort: `a`
may precede `b` unless the comparator says `a` is strictly greater. -/
def sortLe (order_by : List OrderByClause) (schema : List ColumnDef)
    (table_name : String) (joined_tables : JoinedTables)
    (a b : Nat × List DataValue) : Bool :=
  sortCmp order_by schema table_name joined_tables a b ≠ .gt

/-- From `src/transaction_manager.rs`, `sort_results`: stable sort of the
result rows by the multi-key comparator (Rust's `sort_by` is a stable sort,
modelled by `List.mergeSort`). -/
def sort_results (results : List (Nat × List DataValue))
    (order_by : List OrderByClause) (schema : List ColumnDef)
    (table_name : String) (joined_tables : JoinedTables) :
    List (Nat × List DataValue) :=
  if order_by.isEmpty || results.isEmpty then results
  else results.mergeSort (sortLe order_by schema table_name joined_tables)

/-- From `src/transaction_manager.rs` lines 645-735: one step of the nested
loop join.  Each partial tuple is combined with every row of the joined table
satisfying the join condition, and the combined tuple is kept only when the
WHERE check on the combined data passes. -/
def joinLoop (base_name : String) (base_len : Nat) (allJoined : JoinedTables)
    (whereClause : Option WhereType) :
    JoinedTables → List (List DataValue × List ColumnDef) →
    List (List DataValue × List ColumnDef)
  | [], matched => matched
  | (join, (joined_schema, joined_rows)) :: rest, matched =>
    let new_matched := matched.flatMap (fun curr =>
      joined_rows.filterMap (fun joined_row =>
        if evaluate_join_condition join.onCond curr.1 curr.2 joined_row
            joined_schema base_name join.table_ref.name then
          let combined_row := curr.1 ++ joined_row
          let combined_schema := curr.2 ++ joined_schema
          if joinedWhereEval whereClause combined_row combined_schema base_name
              base_len allJoined then
            some (combined_row, combined_schema)
          else none
        else none))
    joinLoop base_name base_len allJoined whereClause rest new_matched

/-- From `src/transaction_manager.rs` lines 615-640: the data used for one
base row of a SELECT.  A row whose first cell is not an integer yields `none`
(the source `continue`s; `row[0]` presumes a nonempty row).  Otherwise the
committed MVCC version is read, falling back to the stored row; under
ReadCommitted the source additionally probes `read_uncommitted` but uses the
original row in both arms, reproduced literally. -/
def selectRowData (mvcc : MVCCState) (transaction_id : Nat)
    (iso : IsolationLevel) (table_name : String) (row : List DataValue) :
    Option (List DataValue) :=
  match row.head? with
  | some (.integer n) =>
    let key := KeyFormat.row table_name 0 (toString n)
    some (if iso = IsolationLevel.readCommitted then
      match mvcc.read_committed transaction_id key with
      | some data => data
      | none =>
        match mvcc.read_uncommitted key with
        | some _ => row
        | none => row
    else
      match mvcc.read_committed transaction_id key with
      | some data => data
      | none => row)
  | _ => none

/-- From `src/transaction_manager.rs` lines 614-741: the per-row loop of the
SELECT path, producing `(original index, combined row)` pairs. -/
def selectRows (mvcc : MVCCState) (transaction_id : Nat)
    (iso : IsolationLevel) (table_name : String) (schema : List ColumnDef)
    (whereClause : Option WhereType) (joined_tables : JoinedTables) :
    Nat → List (List DataValue) → List (Nat × List DataValue)
  | _, [] => []
  | i, row :: rest =>
    (match selectRowData mvcc transaction_id iso table_name row with
     | none => []
     | some data =>
       (joinLoop table_name schema.length joined_tables whereClause
           joined_tables [(data, schema)]).map (fun m => (i, m.1))) ++
    selectRows mvcc transaction_id iso table_name schema whereClause
      joined_tables (i + 1) rest

/-- From `src/transaction_manager.rs` lines 756-775: the `(schema_start,
schema_len)` section computed for a qualified column in the projection; unlike
the WHERE path, an unknown table yields `(0, 0)`. -/
def projSection (start : Nat) (joined : JoinedTables) (table : String) :
    Option (Nat × Nat) :=
  match joined with
  | [] => none
  | (join, (join_schema, _)) :: rest =>
    if join.table_ref.name = table then some (start, join_schema.length)
    else projSection (start + join_schema.length) rest table

/-- From `src/transaction_manager.rs` lines 783-792: the loop that pushes a
qualified joined-table column directly (the `schema_start ≥ schema.len()`
branch); once the column is found in a matching join's schema the loop breaks,
pushing only when the cell index is in bounds. -/
def projQualifiedJoinedPush (joined : JoinedTables) (table col_name : String)
    (schema_start : Nat) (joined_data : List DataValue) : List DataValue :=
  match joined with
  | [] => []
  | (join, (join_schema, _)) :: rest =>
    if join.table_ref.name = table then
      match join_schema.findIdx? (fun c => c.name = col_name) with
      | some idx =>
        if schema_start + idx < joined_data.length then
          [cellAt joined_data (schema_start + idx)]
        else []
      | none => projQualifiedJoinedPush rest table col_name schema_start
          joined_data
    else projQualifiedJoinedPush rest table col_name schema_start joined_data

/-- From `src/transaction_manager.rs` lines 754-803: the cells appended to the
projection for one qualified column. -/
def projQualifiedValues (col : Column) (table : String)
    (schema : List ColumnDef) (joined : JoinedTables)
    (joined_data : List DataValue) (base_name : String) : List DataValue :=
  let sec :=
    if table = base_name then (0, schema.length)
    else (projSection schema.length joined table).getD (0, 0)
  if sec.1 < joined_data.length then
    if sec.1 < schema.length then
      let slice := (schema.drop sec.1).take
        (min (sec.1 + sec.2) schema.length - sec.1)
      match slice.findIdx? (fun c => c.name = col.name) with
      | some idx => [cellAt joined_data (sec.1 + idx)]
      | none => []
    else projQualifiedJoinedPush joined table col.name sec.1 joined_data
  else []

/-- From `src/transaction_manager.rs` lines 806-821: the loop that pushes an
unqualified column found in a joined table's schema; a find whose cell index
is out of bounds does not break, and the offset keeps accumulating. -/
def projUnqualifiedJoinedPush (start : Nat) (joined : JoinedTables)
    (col_name : String) (joined_data : List DataValue) : List DataValue :=
  match joined with
  | [] => []
  | (_, (join_schema, _)) :: rest =>
    match join_schema.findIdx? (fun c => c.name = col_name) with
    | some idx =>
      if start + idx < joined_data.length then [cellAt joined_data (start + idx)]
      else projUnqualifiedJoinedPush (start + join_schema.length) rest col_name
        joined_data
    | none => projUnqualifiedJoinedPush (start + join_schema.length) rest
        col_name joined_data

/-- From `src/transaction_manager.rs` lines 804-822: the cells appended to the
projection for one unqualified column. -/
def projUnqualifiedValues (col : Column) (schema : List ColumnDef)
    (joined : JoinedTables) (joined_data : List DataValue) : List DataValue :=
  match schema.findIdx? (fun c => c.name = col.name) with
  | some idx => [cellAt joined_data idx]
  | none => projUnqualifiedJoinedPush schema.length joined col.name joined_data

/-- From `src/transaction_manager.rs` lines 747-830: the column projection
applied after sorting.  A `*` column selects the whole combined tuple. -/
def projectRow (columns : List Column) (schema : List ColumnDef)
    (joined : JoinedTables) (base_name : String)
    (joined_data : List DataValue) : List DataValue :=
  if columns.any (fun c => c.name = "*") then joined_data
  else
    columns.flatMap (fun col =>
      match col.table with
      | some table =>
        projQualifiedValues col table schema joined joined_data base_name
      | none => projUnqualifiedValues col schema joined joined_data)

/-- From `src/transaction_manager.rs` lines 592-599: gather the joined tables
from storage, failing on an unknown table. -/
def lookupJoinedTables (storage : TableStorage) :
    List JoinClause → Except ReefDBError JoinedTables
  | [] => .ok []
  | join :: rest =>
    match storage.get_table_ref join.table_ref.name with
    | none => .error (.tableNotFound join.table_ref.name)
    | some td => (lookupJoinedTables storage rest).map ((join, td) :: ·)

/-- From `src/transaction_manager.rs` lines 574-833: the SELECT branch of
`execute_statement`.  The presentation-only `ColumnInfo` metadata of the
result is not modelled; the returned list is the projected
`(original index, row)` pairs. -/
def executeSelect (mvcc : MVCCState) (transaction_id : Nat)
    (iso : IsolationLevel) (storage : TableStorage)
    (table_ref : TableReference) (columns : List Column)
    (whereClause : Option WhereType) (joins : List JoinClause)
    (order_by : List OrderByClause) :
    Except ReefDBError (List (Nat × List DataValue)) :=
  match storage.get_table_ref table_ref.name with
  | none => .error (.tableNotFound table_ref.name)
  | some (schema, rows) =>
    match lookupJoinedTables storage joins with
    | .error e => .error e
    | .ok joined_tables =>
      let results := selectRows mvcc transaction_id iso table_ref.name schema
        whereClause joined_tables 0 rows
      let sorted := sort_results results order_by schema table_ref.name
        joined_tables
      .ok (sorted.map (fun p =>
        (p.1, projectRow columns schema joined_tables table_ref.name p.2)))

/-- From `src/transaction_manager.rs` lines 550-556: build the updated tuple
by replacing each SET column present in the schema. -/
def applyUpdates (schema : List ColumnDef) (updates : List (String × DataValue))
    (row : List DataValue) : List DataValue :=
  updates.foldl (fun acc u =>
    match schema.findIdx? (fun c => c.name = u.1) with
    | some idx => acc.set idx u.2
    | none => acc) row

/-- From `src/transaction_manager.rs` lines 538-547: the WHERE check of the
UPDATE loop, vacuously true when no WHERE clause is given. -/
def whereOk (whereClause : Option WhereType) (row : List DataValue)
    (schema : List ColumnDef) (table_name : String) : Bool :=
  match whereClause with
  | some wc => evaluate_where_clause wc row schema table_name
  | none => true

/-- From `src/transaction_manager.rs` lines 528-563: the per-row loop of the
UPDATE branch.  Rows whose first cell is not an integer are skipped; matched
rows are written through MVCC and counted, and a write failure aborts the
statement. -/
def updateRows (transaction_id : Nat) (table_name : String)
    (updates : List (String × DataValue)) (whereClause : Option WhereType)
    (schema : List ColumnDef) :
    MVCCState → Nat → List (List DataValue) →
    Except ReefDBError (MVCCState × Nat)
  | mvcc, count, [] => .ok (mvcc, count)
  | mvcc, count, row :: rest =>
    match row.head? with
    | some (.integer n) =>
      let key := KeyFormat.row table_name 0 (toString n)
      if whereOk whereClause row schema table_name then
        match mvcc.write transaction_id key (applyUpdates schema updates row) with
        | .error e => .error e
        | .ok mvcc2 =>
          updateRows transaction_id table_name updates whereClause schema
            mvcc2 (count + 1) rest
      else
        updateRows transaction_id table_name updates whereClause schema
          mvcc count rest
    | _ =>
      updateRows transaction_id table_name updates whereClause schema
        mvcc count rest

/-- From `src/transaction_manager.rs` lines 502-565: the UPDATE branch of
`execute_statement`. -/
def executeUpdate (mvcc : MVCCState) (transaction_id : Nat)
    (storage : TableStorage) (table_name : String)
    (updates : List (String × DataValue)) (whereClause : Option WhereType) :
    Except ReefDBError (MVCCState × ReefDBResult) :=
  match storage.get_table_ref table_name with
  | none => .error (.tableNotFound table_name)
  | some (schema, rows) =>
    (updateRows transaction_id table_name updates whereClause schema
      mvcc 0 rows).map (fun p => (p.1, .update p.2))

/-- Modelled from the spec, section 4.7: the database-level WHERE evaluator
`ReefDB::evaluate_where_clause` called by `execute_statement_committed` (its
defining file is not among the provided sources): locate the column by name in
the combined schema, restricted to the named table's section when a qualifier
is given; a missing column makes the predicate false. -/
def dbEvaluateWhereClause (wc : WhereType) (row join_row : List DataValue)
    (schema join_schema : List ColumnDef) (table_name : String) : Bool :=
  match wc with
  | .regular clause =>
    match clause.table with
    | some t =>
      if t = table_name then
        match schema.findIdx? (fun c => c.name = clause.col_name) with
        | some idx => clause.operator.evaluate (cellAt row idx) clause.value
        | none => false
      else
        match join_schema.findIdx? (fun c => c.name = clause.col_name) with
        | some idx => clause.operator.evaluate (cellAt join_row idx) clause.value
        | none => false
    | none =>
      match (schema ++ join_schema).findIdx? (fun c => c.name = clause.col_name) with
      | some idx =>
        clause.operator.evaluate (cellAt (row ++ join_row) idx) clause.value
      | none => false
  | .and l r =>
    dbEvaluateWhereClause l row join_row schema join_schema table_name &&
    dbEvaluateWhereClause r row join_row schema join_schema table_name
  | .or l r =>
    dbEvaluateWhereClause l row join_row schema join_schema table_name ||
    dbEvaluateWhereClause r row join_row schema join_schema table_name
  | .fts => false

/-- From `src/transaction_manager.rs` lines 901-917: the committed-path
projection.  A `*` column replaces everything accumulated so far by the whole
row and stops. -/
def selectCommittedProj (data : List DataValue) (schema : List ColumnDef) :
    List Column → List DataValue → List DataValue
  | [], acc => acc
  | col :: rest, acc =>
    if col.name = "*" then data
    else
      match schema.findIdx? (fun c => c.name = col.name) with
      | some idx => selectCommittedProj data schema rest (acc ++ [cellAt data idx])
      | none => selectCommittedProj data schema rest acc

/-- From `src/transaction_manager.rs` lines 869-923: the per-row loop of
`execute_statement_committed`.  A row whose first cell is not an integer is
skipped, and a row whose key has no committed MVCC version is skipped with no
fallback to the stored row. -/
def selectCommittedRows (mvcc : MVCCState) (table_name : String)
    (schema : List ColumnDef) (columns : List Column)
    (whereClause : Option WhereType) :
    Nat → List (List DataValue) → List (Nat × List DataValue)
  | _, [] => []
  | i, row :: rest =>
    (match row.head? with
     | some (.integer n) =>
       let key := KeyFormat.row table_name 0 (toString n)
       match mvcc.read_committed 0 key with
       | some data =>
         let should_include :=
           match whereClause with
           | some wc => dbEvaluateWhereClause wc data [] schema [] table_name
           | none => true
         if should_include then
           let row_data :=
             if columns.any (fun c => c.name ≠ "*") then
               selectCommittedProj data schema columns []
             else data
           [(i, row_data)]
         else []
       | none => []
     | _ => []) ++
    selectCommittedRows mvcc table_name schema columns whereClause (i + 1) rest

/-- From `src/transaction_manager.rs` lines 853-934: `execute_statement_committed`.
A SELECT reads the globally newest committed MVCC state (system reader 0); any
other statement fails with the `Other` message below and performs no mutation
(the source's non-SELECT arm only returns the error). -/
def execute_statement_committed (mvcc : MVCCState) (storage : TableStorage)
    (stmt : Statement) : Except ReefDBError ReefDBResult :=
  match stmt with
  | .select (.fromTable table_ref columns whereClause _joins order_by) =>
    match storage.get_table_ref table_ref.name with
    | none => .error (.tableNotFound table_ref.name)
    | some (schema, rows) =>
      let results := selectCommittedRows mvcc table_ref.name schema columns
        whereClause 0 rows
      .ok (.select (sort_results results order_by schema table_ref.name []))
  | _ => .error (.other "Only SELECT statements are supported in read committed mode")

/-- From `src/transaction_manager.rs` lines 944-956: the retry loop of
`try_execute_with_retry`.  The outcome of attempt `r` is supplied by the
oracle `exec r` (the statement runs against shared mutable state, so each
attempt may differ); the returned list records the back-off sleeps, in
milliseconds, performed before each retry.  `remaining` is
`max_retries - retries`, which strictly decreases on every retry. -/
def retryLoop (exec : Nat → Except ReefDBError ReefDBResult) (attempt : Nat) :
    Nat → Except ReefDBError ReefDBResult × List Nat
  | 0 => (exec attempt, [])
  | remaining + 1 =>
    match exec attempt with
    | .ok r => (.ok r, [])
    | .error .deadlock =>
      let rec2 := retryLoop exec (attempt + 1) remaining
      (rec2.1, 10 * 2 ^ attempt :: rec2.2)
    | .error e => (.error e, [])

/-- From `src/transaction_manager.rs` lines 936-957: `try_execute_with_retry`.
If the transaction is not active in the MVCC manager the call fails
immediately; otherwise the loop retries deadlocks up to `max_retries` times
with exponential back-off. -/
def try_execute_with_retry (isActive : Bool)
    (exec : Nat → Except ReefDBError ReefDBResult) (max_retries : Nat) :
    Except ReefDBError ReefDBResult × List Nat :=
  if isActive then retryLoop exec 0 max_retries
  else (.error .transactionNotActive, [])

/-- Modelled from the spec, section 4.6: a transaction object with its
lifecycle state, isolation level and private working copy (`transaction.rs`
is not among the provided sources). -/
structure Transaction where
  state : TransactionState
  isolation_level : IsolationLevel
  tables : TableStorage
deriving DecidableEq

/-- Modelled from the spec, section 4.1: the write-ahead log.  `ioOk` models
the environment: appends fail with `WalIoError` exactly when it is false. -/
structure WALState where
  entries : List WALEntry
  ioOk : Bool
deriving DecidableEq

/-- Modelled from the spec, section 4.1: `append_entry`. -/
def WALState.append_entry (w : WALState) (e : WALEntry) :
    Except ReefDBError WALState :=
  if w.ioOk then .ok { w with entries := w.entries ++ [e] }
  else .error .walIoError

/-- The transaction manager's state: the active-transaction map it owns plus
the shared subsystems of `src/transaction_manager.rs` (WAL, MVCC, lock
manager, deadlock detector, savepoint manager, database tables).  The
`committedIds` and `rolledBackIds` fields record the lifecycle transitions
performed by `Transaction::commit` and `Transaction::rollback` (modelled from
the spec, section 3: state goes to Committed on commit and RolledBack on
rollback). -/
structure TMState where
  nextId : Nat
  active_transactions : List (Nat × Transaction)
  wal : WALState
  mvcc : MVCCState
  locks : List (Nat × String × LockType)
  waitForEdges : List (Nat × Nat × String)
  savepoints : List (Nat × String)
  dbTables : TableStorage
  committedIds : List Nat
  rolledBackIds : List Nat
deriving DecidableEq

/-- Look up an active transaction (`active_transactions.get`). -/
def TMState.findActive (st : TMState) (id : Nat) : Option Transaction :=
  (st.active_transactions.find? (fun p => p.1 = id)).map (·.2)

/-- Remove a transaction from the active map (`active_transactions.remove`). -/
def TMState.removeActive (st : TMState) (id : Nat) : TMState :=
  { st with active_transactions :=
      st.active_transactions.filter (fun p => p.1 ≠ id) }

/-- Modelled from the spec, section 4.2: `release_transaction_locks`. -/
def releaseTransactionLocks (st : TMState) (id : Nat) : TMState :=
  { st with locks := st.locks.filter (fun l => l.1 ≠ id) }

/-- Modelled from the spec, section 4.3: `remove_transaction` drops all edges
incident to the transaction. -/
def deadlockRemoveTransaction (st : TMState) (id : Nat) : TMState :=
  { st with waitForEdges :=
      st.waitForEdges.filter (fun e => e.1 ≠ id ∧ e.2.1 ≠ id) }

/-- Modelled from the spec, section 4.5: `clear_transaction_savepoints`. -/
def clearTransactionSavepoints (st : TMState) (id : Nat) : TMState :=
  { st with savepoints := st.savepoints.filter (fun s => s.1 ≠ id) }

/-- From `src/transaction_manager.rs` lines 175-204: `rollback_transaction`.
The transaction is removed from the active map (failing with the `Other`
error below when absent), its working copy discarded and its state marked
rolled back, its MVCC versions dropped, its locks, wait-for edges and
savepoints cleared. -/
def rollback_transaction (st : TMState) (id : Nat) :
    TMState × Except ReefDBError Unit :=
  match st.findActive id with
  | none => (st, .error (.other "Transaction not found"))
  | some _ =>
    let st1 := st.removeActive id
    let st2 := { st1 with rolledBackIds := id :: st1.rolledBackIds }
    let st3 := { st2 with mvcc := st2.mvcc.rollback id }
    let st4 := releaseTransactionLocks st3 id
    let st5 := deadlockRemoveTransaction st4 id
    (clearTransactionSavepoints st5 id, .ok ())

/-- From `src/transaction_manager.rs` lines 118-173: `commit_transaction`.
The transaction is removed from the active map first; a WAL `Commit` entry is
appended before the MVCC commit; on MVCC failure the source calls
`rollback_transaction(id)?`, whose error (the transaction is no longer in the
active map) is propagated in place of the MVCC error. -/
def commit_transaction (st : TMState) (id : Nat) :
    TMState × Except ReefDBError Unit :=
  match st.findActive id with
  | none => (st, .error (.other "Transaction not found"))
  | some tx =>
    let st1 := st.removeActive id
    if tx.state ≠ TransactionState.active then
      (st1, .error (.other "Transaction is not active"))
    else
      let final_state := tx.tables
      let entry : WALEntry :=
        { transaction_id := id, operation := .commit, table_name := "", data := [] }
      match st1.wal.append_entry entry with
      | .error e => (st1, .error e)
      | .ok wal2 =>
        let st2 := { st1 with wal := wal2 }
        match st2.mvcc.commit id with
        | .error e =>
          let r := rollback_transaction st2 id
          match r.2 with
          | .error e2 => (r.1, .error e2)
          | .ok _ => (r.1, .error e)
        | .ok mvcc2 =>
          let st3 := { st2 with mvcc := mvcc2, dbTables := final_state }
          let st4 := { st3 with committedIds := id :: st3.committedIds }
          let st5 := releaseTransactionLocks st4 id
          (deadlockRemoveTransaction st5 id, .ok ())

/-- From `src/transaction_manager.rs` lines 102-116: `begin_transaction`
clones the database state into a fresh transaction with a monotonically
generated id (id generation is modelled from the spec, section 3), registers
it in the MVCC manager and the active map. -/
def begin_transaction (st : TMState) (iso : IsolationLevel) : TMState × Nat :=
  let id := st.nextId
  let tx : Transaction :=
    { state := .active, isolation_level := iso, tables := st.dbTables }
  ({ st with
      nextId := id + 1
      mvcc := st.mvcc.begin_transaction id
      active_transactions := (id, tx) :: st.active_transactions }, id)

/-- A transaction-lifecycle event applied to the manager. -/
inductive TMEvent where
  | beginTx (iso : IsolationLevel)
  | commitTx (id : Nat)
  | rollbackTx (id : Nat)

/-- Apply one lifecycle event. -/
def applyEvent (st : TMState) (ev : TMEvent) : TMState :=
  match ev with
  | .beginTx iso => (begin_transaction st iso).1
  | .commitTx id => (commit_transaction st id).1
  | .rollbackTx id => (rollback_transaction st id).1

/-- Run a sequence of lifecycle events. -/
def runEvents (st : TMState) : List TMEvent → TMState
  | [] => st
  | ev :: rest => runEvents (applyEvent st ev) rest

/-- The manager's initial state over given database tables and WAL health. -/
def initState (tables : TableStorage) (ioOk : Bool) : TMState :=
  { nextId := 1
    active_transactions := []
    wal := { entries := [], ioOk := ioOk }
    mvcc := { timestamp_counter := 0, active_tx := [], versions := [] }
    locks := []
    waitForEdges := []
    savepoints := []
    dbTables := tables
    committedIds := []
    rolledBackIds := [] }

/-- Whether the WAL holds a `Commit` entry for the given transaction. -/
def hasCommitEntry (w : WALState) (id : Nat) : Bool :=
  w.entries.any (fun e =>
    e.operation == WALOperation.commit && e.transaction_id == id)

/-- Whether a statement is a SELECT. -/
def Statement.isSelect : Statement → Bool
  | .select _ => true
  | _ => false

/-- Whether an error is the `InvalidOperation` kind. -/
def ReefDBError.isInvalidOperation : ReefDBError → Bool
  | .invalidOperation _ => true
  | _ => false

/-- Whether a row's first cell is an integer (the executor's primary-key
test). -/
def rowHasIntPk (row : List DataValue) : Bool :=
  match row.head? with
  | some (.integer _) => true
  | _ => false

/-- The primary-key string of a row with an integer first cell. -/
def rowPk (row : List DataValue) : String :=
  match row.head? with
  | some (.integer n) => toString n
  | _ => ""

/- Concrete inputs used by witnesses and counterexamples. -/

/-- An MVCC manager with no transactions and no versions. -/
def emptyMVCC : MVCCState :=
  { timestamp_counter := 0, active_tx := [], versions := [] }

/-- A three-column users schema. -/
def usersSchema : List ColumnDef :=
  [ { name := "id", data_type := .integer, constraints := [.primaryKey] },
    { name := "name", data_type := .text, constraints := [] },
    { name := "age", data_type := .integer, constraints := [] } ]

/-- Storage holding a users table whose second row has a text first column. -/
def c3Storage : TableStorage :=
  [("users",
    ([ { name := "id", data_type := .integer, constraints := [.primaryKey] },
       { name := "name", data_type := .text, constraints := [] } ],
     [[.integer 1, .text "alice"], [.text "key", .text "bob"]]))]

/-- An MVCC state in which transaction 1 (read timestamp 1) wrote key
`users/0/1`, while transaction 2 committed a newer version of the same key
(begin timestamp 2), so first-committer-wins makes transaction 1's commit
fail. -/
def c1Mvcc : MVCCState :=
  { timestamp_counter := 2
    active_tx := [(1, 1)]
    versions := [("users/0/1",
      [ { tx_id := 1, begin_ts := 1, end_ts := none
          data := [.integer 1, .text "a"], committed := false },
        { tx_id := 2, begin_ts := 2, end_ts := none
          data := [.integer 1, .text "b"], committed := true } ])] }

/-- A manager state with transaction 1 active, holding a lock and a savepoint,
over the conflicted MVCC state `c1Mvcc`. -/
def c1State : TMState :=
  { nextId := 3
    active_transactions :=
      [(1, { state := .active, isolation_level := .serializable, tables := [] })]
    wal := { entries := [], ioOk := true }
    mvcc := c1Mvcc
    locks := [(1, "users", .exclusive)]
    waitForEdges := []
    savepoints := [(1, "sp1")]
    dbTables := []
    committedIds := []
    rolledBackIds := [] }

/-- Base schema of table t1 for the ORDER BY resolution inputs. -/
def c6Base : List ColumnDef :=
  [ { name := "a", data_type := .integer, constraints := [] },
    { name := "b", data_type := .integer, constraints := [] } ]

/-- An inner-join clause onto the named table. -/
def mkJoin (t : String) : JoinClause :=
  { join_type := .inner, table_ref := { name := t, aliasName := none }
    onCond := ({ column_name := "a", table_name := "t1" },
               { column_name := "a", table_name := t }) }

/-- Two joined tables: t2 with three columns, then t3 whose first column is
x.  In the combined schema `a b c d e x y`, column x sits at index 5. -/
def c6Joined : JoinedTables :=
  [ (mkJoin "t2",
      ([ { name := "c", data_type := .integer, constraints := [] },
         { name := "d", data_type := .integer, constraints := [] },
         { name := "e", data_type := .integer, constraints := [] } ], [])),
    (mkJoin "t3",
      ([ { name := "x", data_type := .integer, constraints := [] },
         { name := "y", data_type := .integer, constraints := [] } ], [])) ]

/-- A combined tuple for the schema `a b c d e x y` with pairwise distinct
cells. -/
def c6Row : List DataValue :=
  [.integer 10, .integer 11, .integer 12, .integer 13, .integer 14,
   .integer 15, .integer 16]

/-- Stated from the spec's words for comparison with `sortKeyColIdx`
(refinement target of claim C6): an ORDER BY column qualified by a joined
table's name resolves to its position within that table's schema plus the
cumulative length of all schemas preceding that table, base schema first. -/
def specCumulativeScan (start : Nat) (joined : JoinedTables)
    (t col_name : String) : Option Nat :=
  match joined with
  | [] => none
  | (join, (join_schema, _)) :: rest =>
    if join.table_ref.name = t then
      (join_schema.findIdx? (fun c => c.name = col_name)).map (· + start)
    else specCumulativeScan (start + join_schema.length) rest t col_name

/-- Stated from the spec's words for comparison with `sortKeyColIdx`
(refinement target of claim C6): full cumulative ORDER BY column resolution. -/
def specCumulativeColIdx (col : Column) (schema : List ColumnDef)
    (table_name : String) (joined : JoinedTables) : Option Nat :=
  match col.table with
  | some t =>
    if t = table_name then schema.findIdx? (fun c => c.name = col.name)
    else specCumulativeScan schema.length joined t col.name
  | none => none

/-- Stated from the spec's words for comparison with `evaluate_where_clause`
(refinement target of claim C5): a Regular condition with a table qualifier
restricts the column lookup to the schema section owned by that table; in the
single-table evaluator the only owned section is the whole schema when the
qualifier names the queried table, so an unmatched qualifier resolves nothing
and the predicate is false. -/
def specRestrictedRegularEval (clause : WhereCond) (row : List DataValue)
    (schema : List ColumnDef) (table_name : String) : Bool :=
  match clause.table with
  | some t =>
    if t = table_name then
      match schema.findIdx? (fun c => c.name = clause.col_name) with
      | some idx => clause.operator.evaluate (cellAt row idx) clause.value
      | none => false
    else false
  | none =>
    match schema.findIdx? (fun c => c.name = clause.col_name) with
    | some idx => clause.operator.evaluate (cellAt row idx) clause.value
    | none => false

/-- A statement-execution oracle that deadlocks on the first two attempts and
succeeds on the third. -/
def c9Exec : Nat → Except ReefDBError ReefDBResult :=
  fun r => if r < 2 then .error .deadlock else .ok (.update 0)

/-- The users-orders join input for the C5 witness. -/
def c5Joined : JoinedTables :=
  [ (mkJoin "orders",
      ([ { name := "oid", data_type := .integer, constraints := [.primaryKey] },
         { name := "amount", data_type := .integer, constraints := [] } ], [])) ]

/-- The combined schema (two base columns, then the orders columns) for the
C5 witness. -/
def c5Combined : List ColumnDef :=
  [ { name := "id", data_type := .integer, constraints := [.primaryKey] },
    { name := "name", data_type := .text, constraints := [] },
    { name := "oid", data_type := .integer, constraints := [.primaryKey] },
    { name := "amount", data_type := .integer, constraints := [] } ]

/-- A one-row table whose row has no committed MVCC version, for the C10
witness. -/
def c10Storage : TableStorage :=
  [("t",
    ([ { name := "id", data_type := .integer, constraints := [.primaryKey] },
       { name := "v", data_type := .text, constraints := [] } ],
     [[.integer 7, .text "v"]]))]

/-- Whether the UPDATE loop matches a base row: integer first cell and WHERE
satisfied (vacuously when absent). -/
def updMatches (whereClause : Option WhereType) (schema : List ColumnDef)
    (table_name : String) (row : List DataValue) : Bool :=
  rowHasIntPk row && whereOk whereClause row schema table_name

/-- The uncommitted version the UPDATE loop writes for a matched row. -/
def updVersion (m : MVCCState) (txId : Nat) (schema : List ColumnDef)
    (updates : List (String × DataValue)) (row : List DataValue) :
    MVCCVersion :=
  { tx_id := txId, begin_ts := m.readTs txId, end_ts := none
    data := applyUpdates schema updates row, committed := false }

/-- Append the UPDATE versions for the given matched rows, in order, each
under the key `table/0/pk`. -/
def writeAllMatched (txId : Nat) (tname : String) (schema : List ColumnDef)
    (updates : List (String × DataValue)) (m : MVCCState)
    (matched : List (List DataValue)) : MVCCState :=
  matched.foldl (fun m2 row =>
    m2.appendVersion (KeyFormat.row tname 0 (rowPk row))
      (updVersion m2 txId schema updates row)) m

/-- No key carries an uncommitted version by a different live transaction, so
every MVCC write by `txId` succeeds. -/
def mvccNoForeignUncommitted (m : MVCCState) (txId : Nat) : Prop :=
  ∀ p ∈ m.versions, ∀ v ∈ p.2,
    v.committed = true ∨ v.tx_id = txId ∨ m.is_active v.tx_id = false

/-- The MVCC state of the C7 witness: transaction 1 freshly begun, no
versions. -/
def c7Mvcc : MVCCState := MVCCState.begin_transaction emptyMVCC 1

/-- The schema of the C7 witness table. -/
def c7Schema : List ColumnDef :=
  [ { name := "id", data_type := .integer, constraints := [.primaryKey] },
    { name := "name", data_type := .text, constraints := [] } ]

/-- The rows of the C7 witness table: two integer-keyed rows and one
text-keyed row. -/
def c7Rows : List (List DataValue) :=
  [[.integer 1, .text "a"], [.text "x"], [.integer 2, .text "b"]]

/-- The storage of the C7 witness. -/
def c7Storage : TableStorage := [("users", (c7Schema, c7Rows))]

/-- The WAL-lifecycle invariant over the manager's relevant fields: committed
transactions have a Commit entry; rolled-back and active transactions have
none; every transaction with a Commit entry, every active transaction and
every rolled-back transaction has an id below the next fresh id; rolled-back
transactions are not active. -/
def walInv (next : Nat) (active : List (Nat × Transaction)) (wal : WALState)
    (committed rolled : List Nat) : Prop :=
  (∀ id ∈ committed, hasCommitEntry wal id = true) ∧
  (∀ id ∈ rolled, hasCommitEntry wal id = false) ∧
  (∀ p ∈ active, hasCommitEntry wal p.1 = false) ∧
  (∀ id, hasCommitEntry wal id = true → id < next) ∧
  (∀ p ∈ active, p.1 < next) ∧
  (∀ id ∈ rolled, ∀ p ∈ active, p.1 ≠ id) ∧
  (∀ id ∈ rolled, id < next)

/-- The invariant instantiated at a manager state. -/
def TMInv (st : TMState) : Prop :=
  walInv st.nextId st.active_transactions st.wal st.committedIds
    st.rolledBackIds

/-- A concrete run: transaction 1 commits, transaction 2 rolls back. -/
def c4Events : List TMEvent :=
  [.beginTx .serializable, .commitTx 1, .beginTx .readCommitted,
   .rollbackTx 2]

/-- C1: in `commit_transaction`, when the MVCC commit fails the source calls
`rollback_transaction(id)` on a transaction it has already removed from the
active map, so the inner call fails immediately with the `Other` message
`Transaction not found` and that error — not the MVCC error — is returned,
while the MVCC versions, the locks, the savepoints stay in place and the
transaction is never marked rolled back.  Evaluated at the concrete failing
state `c1State`. -/
theorem C1_commit_failure_not_rolled_back :
    (commit_transaction c1State 1).2 = .error (.other "Transaction not found") ∧
    MVCCState.commit c1State.mvcc 1 = .error .serializationFailure ∧
    (commit_transaction c1State 1).1.mvcc = c1State.mvcc ∧
    (commit_transaction c1State 1).1.locks = c1State.locks ∧
    (commit_transaction c1State 1).1.savepoints = c1State.savepoints ∧
    (commit_transaction c1State 1).1.rolledBackIds = [] := by decide

/-- C2 counterexample: a non-SELECT statement passed to
`execute_statement_committed` yields the `Other` error kind with the message
below, not the `InvalidOperation` kind the claim names. -/
theorem C2_counterexample :
    execute_statement_committed emptyMVCC []
        (.insert (.intoTable "users" [.integer 1])) =
      .error (.other "Only SELECT statements are supported in read committed mode") ∧
    (ReefDBError.other
        "Only SELECT statements are supported in read committed mode").isInvalidOperation
      = false := by
  exact ⟨rfl, rfl⟩

/-- C2 as amended: every non-SELECT statement passed to
`execute_statement_committed` fails with the `Other` error carrying the
message below.  The embedding of `execute_statement_committed` is a pure
function of the MVCC state and storage because the source's non-SELECT arm
performs no mutation, so the database state is unchanged by construction. -/
theorem C2_non_select_other_error (mvcc : MVCCState) (storage : TableStorage)
    (stmt : Statement) (h : stmt.isSelect = false) :
    execute_statement_committed mvcc storage stmt =
      .error (.other "Only SELECT statements are supported in read committed mode") := by
  cases stmt
  case select s => simp [Statement.isSelect] at h
  all_goals rfl

/-- C2 witness: the amended theorem applied to a concrete UPDATE statement. -/
theorem C2_witness :
    execute_statement_committed emptyMVCC []
        (.update (.updateTable "users" [("name", .text "z")] none)) =
      .error (.other "Only SELECT statements are supported in read committed mode") :=
  C2_non_select_other_error emptyMVCC []
    (.update (.updateTable "users" [("name", .text "z")] none)) rfl

/-- C3 counterexample: a SELECT through `execute_statement`'s path over a
table whose second row has a text first column returns only the integer-keyed
row; the text-keyed row is dropped from the result rather than served by a
direct storage read. -/
theorem C3_counterexample :
    executeSelect emptyMVCC 1 .serializable c3Storage
        { name := "users", aliasName := none } [{ table := none, name := "*" }]
        none [] [] =
      .ok [(0, [.integer 1, .text "alice"])] := by decide

/-- C5 counterexample: in the single-table WHERE path, a Regular condition
qualified with table `orders` is evaluated against the `users` schema: the
lookup is not restricted to a schema section owned by `orders` (there is
none), and the condition compares `users.age`, a column of a different table,
evaluating to true where the spec's restricted resolution yields false. -/
theorem C5_counterexample :
    evaluate_where_clause
        (.regular { table := some "orders", col_name := "age"
                    operator := .eq, value := .integer 30 })
        [.integer 1, .text "Alice", .integer 30] usersSchema "users" = true ∧
    specRestrictedRegularEval
        { table := some "orders", col_name := "age"
          operator := .eq, value := .integer 30 }
        [.integer 1, .text "Alice", .integer 30] usersSchema "users" = false := by
  decide

/-- C6: `sort_results` resolves an ORDER BY column of the second joined table
to its position in that table's schema plus only the base schema's length
(the source's `.map` closure captures the outer `schema`), not the cumulative
length of all preceding schemas: over base `a b` joined with `t2 = c d e` and
`t3 = x y`, column `t3.x` resolves to index 2 instead of the cumulative index
5, so the compared cell is `t2.c`'s value rather than `x`'s. -/
theorem C6_sort_colidx_base_offset :
    sortKeyColIdx { table := some "t3", name := "x" } c6Base "t1" c6Joined
      = some 2 ∧
    specCumulativeColIdx { table := some "t3", name := "x" } c6Base "t1"
      c6Joined = some 5 ∧
    cellAt c6Row 2 ≠ cellAt c6Row 5 := by decide

/-- Behaviour of the retry loop: at most `remaining` retries are performed,
every recorded retry followed a deadlock outcome and slept the exponential
back-off, the returned outcome is that of the attempt just past the recorded
retries, and a deadlock is only returned with the budget exhausted. -/
theorem retryLoop_spec (exec : Nat → Except ReefDBError ReefDBResult) :
    ∀ (remaining attempt : Nat),
    (retryLoop exec attempt remaining).2.length ≤ remaining ∧
    (∀ r < (retryLoop exec attempt remaining).2.length,
      exec (attempt + r) = .error .deadlock ∧
      (retryLoop exec attempt remaining).2.get? r =
        some (10 * 2 ^ (attempt + r))) ∧
    (retryLoop exec attempt remaining).1 =
      exec (attempt + (retryLoop exec attempt remaining).2.length) ∧
    ((retryLoop exec attempt remaining).1 = .error .deadlock →
      (retryLoop exec attempt remaining).2.length = remaining) := by
  intro remaining
  induction remaining with
  | zero =>
    intro attempt
    refine ⟨Nat.le_refl _, ?_, ?_, ?_⟩ <;> simp [retryLoop]
  | succ n ih =>
    intro attempt
    cases h : exec attempt with
    | ok v =>
      refine ⟨?_, ?_, ?_, ?_⟩ <;> simp [retryLoop, h]
    | error e =>
      cases e
      case deadlock =>
        have ihs := ih (attempt + 1)
        obtain ⟨ih1, ih2, ih3, ih4⟩ := ihs
        have hstep : retryLoop exec attempt (n + 1) =
            ((retryLoop exec (attempt + 1) n).1,
             10 * 2 ^ attempt :: (retryLoop exec (attempt + 1) n).2) := by
          simp [retryLoop, h]
        rw [hstep]
        refine ⟨?_, ?_, ?_, ?_⟩
        · simpa using Nat.succ_le_succ ih1
        · intro r hr
          cases r with
          | zero => simpa using h
          | succ r2 =>
            have hr2 : r2 < (retryLoop exec (attempt + 1) n).2.length := by
              simpa using Nat.lt_of_succ_lt_succ hr
            have hh := ih2 r2 hr2
            have harith : attempt + (r2 + 1) = attempt + 1 + r2 := by omega
            constructor
            · rw [harith]
              exact hh.1
            · rw [harith]
              simpa using hh.2
        · have harith : attempt + ((retryLoop exec (attempt + 1) n).2.length + 1) =
              attempt + 1 + (retryLoop exec (attempt + 1) n).2.length := by omega
          simpa [harith] using ih3
        · intro hd
          have := ih4 hd
          simp [this]
      all_goals
        refine ⟨?_, ?_, ?_, ?_⟩ <;> simp [retryLoop, h]

/-- C9: `try_execute_with_retry` (on an active transaction) performs at most
`max_retries` retries; the r-th retry happens only after a deadlock outcome
and sleeps `10·2^r` milliseconds; the returned outcome is that of the first
attempt past the recorded retries — so an error other than deadlock is
returned immediately with no further retry — and a deadlock outcome is
returned only once `max_retries` retries were spent. -/
theorem C9_retry_spec (exec : Nat → Except ReefDBError ReefDBResult)
    (max_retries : Nat) :
    (try_execute_with_retry true exec max_retries).2.length ≤ max_retries ∧
    (∀ r < (try_execute_with_retry true exec max_retries).2.length,
      exec r = .error .deadlock ∧
      (try_execute_with_retry true exec max_retries).2.get? r =
        some (10 * 2 ^ r)) ∧
    (try_execute_with_retry true exec max_retries).1 =
      exec (try_execute_with_retry true exec max_retries).2.length ∧
    ((try_execute_with_retry true exec max_retries).1 = .error .deadlock →
      (try_execute_with_retry true exec max_retries).2.length = max_retries) := by
  have h := retryLoop_spec exec max_retries 0
  simpa [try_execute_with_retry] using h

/-- C9 witness: on the concrete oracle `c9Exec` with five allowed retries,
the first attempt deadlocked and the first recorded back-off sleep is 10
milliseconds. -/
theorem C9_witness :
    c9Exec 0 = .error .deadlock ∧
    (try_execute_with_retry true c9Exec 5).2.get? 0 = some 10 := by
  have h := (C9_retry_spec c9Exec 5).2.1 0 (by decide)
  simpa using h

/-- Any sublist lifts along `attach`: some list of membership-attached
elements projects to it and is a sublist of the attached list. -/
theorem sublist_attach {α : Type _} {l2 l : List α} (h : List.Sublist l2 l) :
    ∃ l3 : List { x // x ∈ l }, l3.map Subtype.val = l2 ∧
      List.Sublist l3 l.attach := by
  induction h with
  | slnil => exact ⟨[], rfl, List.nil_sublist _⟩
  | cons a h2 ih =>
    obtain ⟨l3, hmap, hsub⟩ := ih
    refine ⟨l3.map (fun x => ⟨x.1, List.mem_cons_of_mem a x.2⟩), ?_, ?_⟩
    · rw [List.map_map]
      exact hmap
    · rw [List.attach_cons]
      exact List.Sublist.cons _ (hsub.map _)
  | cons₂ a h2 ih =>
    obtain ⟨l3, hmap, hsub⟩ := ih
    refine ⟨⟨a, List.mem_cons_self a _⟩ ::
        l3.map (fun x => ⟨x.1, List.mem_cons_of_mem a x.2⟩), ?_, ?_⟩
    · simp only [List.map_cons, List.map_map]
      exact congrArg (List.cons a) hmap
    · rw [List.attach_cons]
      exact List.Sublist.cons₂ _ (hsub.map _)

/-- Merge sort commutes with forgetting membership proofs: sorting the
attached list by the value comparator and projecting equals sorting the
original list. -/
theorem mergeSort_attach_map_val {α : Type _} (l : List α)
    (le : α → α → Bool) :
    (List.mergeSort l.attach (fun u v => le u.1 v.1)).map Subtype.val =
      List.mergeSort l le := by
  have h2 : List.mergeSort (l.attach.map Subtype.val) le = List.mergeSort l le := by
    rw [List.attach_map_subtype_val]
  exact Eq.trans (List.map_mergeSort (fun _ _ _ _ => rfl)) h2

/-- Pair stability of merge sort with the transitivity and totality of the
comparator required only on the list's own elements, obtained from the core
stability theorem through the subtype of members. -/
theorem pair_sublist_mergeSort_of_mem {α : Type _} {le : α → α → Bool}
    {l : List α} {a b : α}
    (htrans : ∀ x ∈ l, ∀ y ∈ l, ∀ z ∈ l,
      le x y = true → le y z = true → le x z = true)
    (htotal : ∀ x ∈ l, ∀ y ∈ l, le x y = true ∨ le y x = true)
    (hab : le a b = true) (hsub : List.Sublist [a, b] l) :
    List.Sublist [a, b] (List.mergeSort l le) := by
  obtain ⟨l2, hmap, hsub2⟩ := sublist_attach hsub
  cases l2 with
  | nil => simp at hmap
  | cons x t =>
    cases t with
    | nil => simp at hmap
    | cons y t2 =>
      cases t2 with
      | cons z t3 => simp at hmap
      | nil =>
        simp only [List.map_cons, List.map_nil, List.cons.injEq, and_true]
          at hmap
        obtain ⟨hx, hy⟩ := hmap
        have core : List.Sublist [x, y]
            (List.mergeSort l.attach (fun u v => le u.1 v.1)) :=
          List.pair_sublist_mergeSort
            (fun u v w huv hvw => htrans u.1 u.2 v.1 v.2 w.1 w.2 huv hvw)
            (fun u v => by
              rcases htotal u.1 u.2 v.1 v.2 with hh | hh <;> simp [hh])
            (by show le x.1 y.1 = true
                rw [hx, hy]
                exact hab)
            hsub2
        have hmaps := core.map Subtype.val
        rw [mergeSort_attach_map_val] at hmaps
        simp only [List.map_cons, List.map_nil] at hmaps
        rw [hx, hy] at hmaps
        exact hmaps

/-- C8: `sort_results` is stable: whenever the comparator restricted to the
rows actually being sorted is transitive and total — as it is in the claim's
scope, where result rows share one length and every resolved ORDER BY key
compares in-bounds cells by the natural total order on values — any two
result rows that compare equal on every ORDER BY key (the comparator returns
`eq`) appear in the sorted output in the same relative order they had before
sorting. -/
theorem C8_stable_sort (order_by : List OrderByClause)
    (schema : List ColumnDef) (tname : String) (joined : JoinedTables)
    (results : List (Nat × List DataValue)) (a b : Nat × List DataValue)
    (htrans : ∀ x ∈ results, ∀ y ∈ results, ∀ z ∈ results,
      sortLe order_by schema tname joined x y = true →
      sortLe order_by schema tname joined y z = true →
      sortLe order_by schema tname joined x z = true)
    (htotal : ∀ x ∈ results, ∀ y ∈ results,
      sortLe order_by schema tname joined x y = true ∨
      sortLe order_by schema tname joined y x = true)
    (heq : sortCmp order_by schema tname joined a b = .eq)
    (hsub : List.Sublist [a, b] results) :
    List.Sublist [a, b] (sort_results results order_by schema tname joined) := by
  unfold sort_results
  split
  · exact hsub
  · refine pair_sublist_mergeSort_of_mem htrans htotal ?_ hsub
    simp [sortLe, heq]

/-- C8 witness: the theorem applied to a three-row result sorted by the age
column ascending — a resolving ORDER BY key that actually reorders the rows,
moving the age-3 row ahead — where the two rows tied at age 5 keep their
relative order; every hypothesis, including local transitivity and totality,
is discharged by computation on the concrete rows. -/
theorem C8_witness :
    List.Sublist
      [((0 : Nat),
        [DataValue.integer 1, DataValue.text "x", DataValue.integer 5]),
       (1, [DataValue.integer 2, DataValue.text "y", DataValue.integer 5])]
      (sort_results
        [(0, [DataValue.integer 1, DataValue.text "x", DataValue.integer 5]),
         (1, [DataValue.integer 2, DataValue.text "y", DataValue.integer 5]),
         (2, [DataValue.integer 3, DataValue.text "z", DataValue.integer 3])]
        [{ column := { table := none, name := "age" }, direction := .asc }]
        usersSchema "users" []) :=
  C8_stable_sort
    [{ column := { table := none, name := "age" }, direction := .asc }]
    usersSchema "users" []
    [(0, [DataValue.integer 1, DataValue.text "x", DataValue.integer 5]),
     (1, [DataValue.integer 2, DataValue.text "y", DataValue.integer 5]),
     (2, [DataValue.integer 3, DataValue.text "z", DataValue.integer 3])]
    (0, [DataValue.integer 1, DataValue.text "x", DataValue.integer 5])
    (1, [DataValue.integer 2, DataValue.text "y", DataValue.integer 5])
    (by decide) (by decide) (by decide) (by decide)

/-- C5 as amended: the table qualifier of a Regular WHERE condition is honoured
only by the top-level Regular resolution of the joined evaluation path, where
a resolved column index always lies inside the schema section owned by the
qualified table; the single-table evaluator `evaluate_where_clause` (also used
for And/Or branches in the joined path) ignores the qualifier entirely,
resolving over the whole current schema exactly as if no qualifier were
given. -/
theorem C5_amended_qualifier_resolution :
    (∀ (clause : WhereCond) (row : List DataValue) (schema : List ColumnDef)
      (tname : String),
      evaluate_where_clause (.regular clause) row schema tname =
        evaluate_where_clause (.regular { clause with table := none })
          row schema tname) ∧
    (∀ (ct col_name base_name : String) (base_len : Nat)
      (joined : JoinedTables) (combined : List ColumnDef) (idx : Nat),
      joinedWhereColIdx (some ct) col_name base_name base_len joined combined
        = some idx →
      (whereSectionOf ct base_name base_len joined).1 ≤ idx ∧
      idx < (whereSectionOf ct base_name base_len joined).1 +
            (whereSectionOf ct base_name base_len joined).2) := by
  constructor
  · intro clause row schema tname
    rcases clause with ⟨t, cn, op, v⟩
    cases t
    · rfl
    · simp only [evaluate_where_clause, ite_self]
  · intro ct col_name base_name base_len joined combined idx h
    unfold joinedWhereColIdx at h
    by_cases hb : combined.length ≤
        (whereSectionOf ct base_name base_len joined).1
    · simp [hb] at h
    · simp only [hb, if_false, ite_false] at h
      rw [Option.map_eq_some'] at h
      obtain ⟨j, hj, hidx⟩ := h
      have hjlt := (List.findIdx?_eq_some_iff_getElem.mp hj).1
      have hlen : (((combined.drop
          (whereSectionOf ct base_name base_len joined).1).take
            (min ((whereSectionOf ct base_name base_len joined).1 +
                  (whereSectionOf ct base_name base_len joined).2)
              combined.length -
             (whereSectionOf ct base_name base_len joined).1)).length) ≤
          (whereSectionOf ct base_name base_len joined).2 := by
        rw [List.length_take]
        have := Nat.min_le_left
          ((whereSectionOf ct base_name base_len joined).1 +
            (whereSectionOf ct base_name base_len joined).2) combined.length
        omega
      omega

/-- C5 witness: the amended theorem applied to the concrete qualified lookup
of `orders.amount` in the joined path, whose resolved index 3 lies inside the
orders section `(2, 2)`. -/
theorem C5_witness :
    (whereSectionOf "orders" "users" 2 c5Joined).1 ≤ 3 ∧
    3 < (whereSectionOf "orders" "users" 2 c5Joined).1 +
        (whereSectionOf "orders" "users" 2 c5Joined).2 :=
  C5_amended_qualifier_resolution.2 "orders" "amount" "users" 2 c5Joined
    c5Combined 3 (by decide)

/-- Membership in a sorted result implies membership in the unsorted one. -/
theorem mem_sort_results {x : Nat × List DataValue}
    {l : List (Nat × List DataValue)} {ob : List OrderByClause}
    {schema : List ColumnDef} {tname : String} {joined : JoinedTables}
    (h : x ∈ sort_results l ob schema tname joined) : x ∈ l := by
  unfold sort_results at h
  split at h
  · exact h
  · exact List.mem_mergeSort.mp h

/-- `selectRowData` succeeds only on rows whose first cell is an integer. -/
theorem selectRowData_int {mvcc : MVCCState} {txId : Nat}
    {iso : IsolationLevel} {tname : String} {row data : List DataValue}
    (h : selectRowData mvcc txId iso tname row = some data) :
    rowHasIntPk row = true := by
  unfold selectRowData at h
  unfold rowHasIntPk
  cases hh : row.head? with
  | none => rw [hh] at h; simp at h
  | some dv =>
    cases dv with
    | integer n => rfl
    | text s => rw [hh] at h; simp at h
    | boolean b => rw [hh] at h; simp at h

/-- Every entry of the SELECT row loop originates from a base row at the
entry's recorded index, and that row's first cell is an integer. -/
theorem selectRows_origin (mvcc : MVCCState) (txId : Nat)
    (iso : IsolationLevel) (tname : String) (schema : List ColumnDef)
    (wc : Option WhereType) (joined : JoinedTables) :
    ∀ (rows : List (List DataValue)) (i0 : Nat) (p : Nat × List DataValue),
    p ∈ selectRows mvcc txId iso tname schema wc joined i0 rows →
    i0 ≤ p.1 ∧ ∃ row, rows[p.1 - i0]? = some row ∧ rowHasIntPk row = true := by
  intro rows
  induction rows with
  | nil =>
    intro i0 p h
    simp [selectRows] at h
  | cons row rest ih =>
    intro i0 p h
    simp only [selectRows] at h
    rcases List.mem_append.mp h with h1 | h2
    · cases hsd : selectRowData mvcc txId iso tname row with
      | none => rw [hsd] at h1; simp at h1
      | some data =>
        rw [hsd] at h1
        obtain ⟨m, hm, hpe⟩ := List.mem_map.mp h1
        subst hpe
        refine ⟨Nat.le_refl _, row, ?_, selectRowData_int hsd⟩
        simp
    · obtain ⟨hle, row2, hget, hint⟩ := ih (i0 + 1) p h2
      refine ⟨by omega, row2, ?_, hint⟩
      have heq2 : p.1 - i0 = (p.1 - (i0 + 1)) + 1 := by omega
      rw [heq2, List.getElem?_cons_succ]
      exact hget

/-- C3 as amended: in `execute_statement`'s SELECT path, every result entry
originates from a base row whose first column is an integer — a base row
whose first column is not an integer is skipped by the row loop (neither
MVCC-tracked nor served by a direct storage read), so it never contributes to
the result. -/
theorem C3_rows_without_int_pk_dropped (mvcc : MVCCState) (txId : Nat)
    (iso : IsolationLevel) (storage : TableStorage) (tref : TableReference)
    (cols : List Column) (wc : Option WhereType) (joins : List JoinClause)
    (ob : List OrderByClause) (res : List (Nat × List DataValue))
    (p : Nat × List DataValue)
    (hres : executeSelect mvcc txId iso storage tref cols wc joins ob = .ok res)
    (hp : p ∈ res) :
    ∃ schema rows, storage.get_table_ref tref.name = some (schema, rows) ∧
      ∃ row, rows[p.1]? = some row ∧ rowHasIntPk row = true := by
  unfold executeSelect at hres
  cases hst : storage.get_table_ref tref.name with
  | none => rw [hst] at hres; simp at hres
  | some td =>
    obtain ⟨schema, rows⟩ := td
    rw [hst] at hres
    cases hjt : lookupJoinedTables storage joins with
    | error e => rw [hjt] at hres; simp at hres
    | ok joined =>
      rw [hjt] at hres
      simp only [Except.ok.injEq] at hres
      subst hres
      obtain ⟨q, hq, hpe⟩ := List.mem_map.mp hp
      have hq2 := mem_sort_results hq
      obtain ⟨-, row, hget, hint⟩ :=
        selectRows_origin mvcc txId iso tref.name schema wc joined rows 0 q hq2
      refine ⟨schema, rows, rfl, row, ?_, hint⟩
      have hp1 : p.1 = q.1 := by rw [← hpe]
      rw [hp1]
      simpa using hget

/-- C3 witness: the amended theorem applied to the concrete mixed-key table of
the counterexample, for the surviving integer-keyed result entry. -/
theorem C3_witness :
    ∃ schema rows,
      TableStorage.get_table_ref c3Storage "users" = some (schema, rows) ∧
      ∃ row, rows[0]? = some row ∧ rowHasIntPk row = true := by
  have h := C3_rows_without_int_pk_dropped emptyMVCC 1 .serializable c3Storage
    { name := "users", aliasName := none } [{ table := none, name := "*" }]
    none [] [] [(0, [.integer 1, .text "alice"])]
    (0, [.integer 1, .text "alice"]) (by decide) (by decide)
  simpa using h

/-- Every entry of the committed SELECT row loop originates from a base row
at the entry's recorded index whose first cell is an integer and whose key
has a committed MVCC version. -/
theorem selectCommittedRows_origin (mvcc : MVCCState) (tname : String)
    (schema : List ColumnDef) (cols : List Column) (wc : Option WhereType) :
    ∀ (rows : List (List DataValue)) (i0 : Nat) (p : Nat × List DataValue),
    p ∈ selectCommittedRows mvcc tname schema cols wc i0 rows →
    i0 ≤ p.1 ∧ ∃ row, rows[p.1 - i0]? = some row ∧
      ∃ n, row.head? = some (.integer n) ∧
        (mvcc.read_committed 0 (KeyFormat.row tname 0 (toString n))).isSome
          = true := by
  intro rows
  induction rows with
  | nil =>
    intro i0 p h
    simp [selectCommittedRows] at h
  | cons row rest ih =>
    intro i0 p h
    simp only [selectCommittedRows] at h
    rcases List.mem_append.mp h with h1 | h2
    · cases hh : row.head? with
      | none => rw [hh] at h1; simp at h1
      | some dv =>
        cases dv with
        | integer n =>
          rw [hh] at h1
          dsimp only at h1
          cases hrc : mvcc.read_committed 0 (KeyFormat.row tname 0 (toString n)) with
          | none => rw [hrc] at h1; simp at h1
          | some data =>
            rw [hrc] at h1
            dsimp only at h1
            split at h1
            · rw [List.mem_singleton] at h1
              subst h1
              refine ⟨Nat.le_refl _, row, by simp, n, hh, ?_⟩
              rw [hrc]
              rfl
            · simp at h1
        | text s => rw [hh] at h1; simp at h1
        | boolean b => rw [hh] at h1; simp at h1
    · obtain ⟨hle, row2, hget, hrest⟩ := ih (i0 + 1) p h2
      refine ⟨by omega, row2, ?_, hrest⟩
      have heq2 : p.1 - i0 = (p.1 - (i0 + 1)) + 1 := by omega
      rw [heq2, List.getElem?_cons_succ]
      exact hget

/-- When the transaction's committed read finds nothing for an integer-keyed
row, the per-transaction SELECT path uses the stored row itself. -/
theorem selectRowData_fallback {mvcc : MVCCState} {txId : Nat}
    {iso : IsolationLevel} {tname : String} {row : List DataValue} {n : Int}
    (hint : row.head? = some (.integer n))
    (hnone : mvcc.read_committed txId (KeyFormat.row tname 0 (toString n))
      = none) :
    selectRowData mvcc txId iso tname row = some row := by
  unfold selectRowData
  rw [hint]
  simp only [hnone]
  split
  · cases mvcc.read_uncommitted (KeyFormat.row tname 0 (toString n)) <;> rfl
  · rfl

/-- A base row whose data round-trips through `selectRowData` appears in the
no-join SELECT row loop at its own index. -/
theorem selectRows_no_join_mem (mvcc : MVCCState) (txId : Nat)
    (iso : IsolationLevel) (tname : String) (schema : List ColumnDef) :
    ∀ (rows : List (List DataValue)) (i0 i : Nat) (row : List DataValue),
    rows[i]? = some row →
    selectRowData mvcc txId iso tname row = some row →
    (i0 + i, row) ∈ selectRows mvcc txId iso tname schema none [] i0 rows := by
  intro rows
  induction rows with
  | nil =>
    intro i0 i row hget
    simp at hget
  | cons r rest ih =>
    intro i0 i row hget hdata
    cases i with
    | zero =>
      simp only [List.getElem?_cons_zero, Option.some.injEq] at hget
      subst hget
      simp only [selectRows, hdata]
      apply List.mem_append.mpr
      left
      simp [joinLoop]
    | succ i2 =>
      have h2 := ih (i0 + 1) i2 row (by simpa using hget) hdata
      have harith : i0 + (i2 + 1) = (i0 + 1) + i2 := by omega
      rw [harith]
      simp only [selectRows]
      apply List.mem_append.mpr
      right
      exact h2

/-- C10: a base storage row with an integer first column whose MVCC key has no
committed version is omitted entirely from the result of a SELECT through
`execute_statement_committed` — there is no fallback to the raw storage row —
whereas the per-transaction SELECT path of `execute_statement` includes the
stored row itself for the same key (shown for the plain star SELECT). -/
theorem C10_committed_select_no_fallback (mvcc : MVCCState)
    (storage : TableStorage) (tref : TableReference) (schema : List ColumnDef)
    (rows : List (List DataValue)) (i : Nat) (row : List DataValue) (n : Int)
    (txId : Nat) (iso : IsolationLevel) (cols : List Column)
    (wc : Option WhereType) (joins : List JoinClause) (ob : List OrderByClause)
    (hst : storage.get_table_ref tref.name = some (schema, rows))
    (hrow : rows[i]? = some row)
    (hint : row.head? = some (.integer n))
    (hnone0 : mvcc.read_committed 0 (KeyFormat.row tref.name 0 (toString n))
      = none)
    (hnonetx : mvcc.read_committed txId (KeyFormat.row tref.name 0 (toString n))
      = none) :
    (∀ res, execute_statement_committed mvcc storage
        (.select (.fromTable tref cols wc joins ob)) = .ok (.select res) →
      ∀ p ∈ res, p.1 ≠ i) ∧
    (∀ res2, executeSelect mvcc txId iso storage tref
        [{ table := none, name := "*" }] none [] [] = .ok res2 →
      (i, row) ∈ res2) := by
  constructor
  · intro res hres p hp hpi
    unfold execute_statement_committed at hres
    dsimp only at hres
    rw [hst] at hres
    dsimp only at hres
    simp only [Except.ok.injEq, ReefDBResult.select.injEq] at hres
    subst hres
    have hp2 := mem_sort_results hp
    obtain ⟨-, row2, hget, n2, hint2, hsome⟩ :=
      selectCommittedRows_origin mvcc tref.name schema cols wc rows 0 p hp2
    rw [hpi] at hget
    simp only [Nat.sub_zero] at hget
    rw [hrow] at hget
    obtain rfl : row2 = row := by
      injection hget with hget2
      exact hget2.symm
    rw [hint] at hint2
    obtain rfl : n2 = n := by
      injection hint2 with hint3
      injection hint3 with hint4
      exact hint4.symm
    rw [hnone0] at hsome
    simp at hsome
  · intro res2 hres2
    unfold executeSelect at hres2
    rw [hst] at hres2
    dsimp only [lookupJoinedTables] at hres2
    simp only [Except.ok.injEq] at hres2
    subst hres2
    have hmem := selectRows_no_join_mem mvcc txId iso tref.name schema rows 0 i
      row hrow (selectRowData_fallback hint hnonetx)
    rw [Nat.zero_add] at hmem
    apply List.mem_map.mpr
    refine ⟨(i, row), ?_, by simp [projectRow]⟩
    simpa [sort_results] using hmem

/-- C10 witness: the theorem applied to the concrete one-row table with an
empty MVCC store; the per-transaction path returns the stored row (second
conjunct), which the committed path omits. -/
theorem C10_witness :
    ((0 : Nat), [DataValue.integer 7, DataValue.text "v"]) ∈
      [((0 : Nat), [DataValue.integer 7, DataValue.text "v"])] :=
  (C10_committed_select_no_fallback emptyMVCC c10Storage
      { name := "t", aliasName := none }
      [ { name := "id", data_type := .integer, constraints := [.primaryKey] },
        { name := "v", data_type := .text, constraints := [] } ]
      [[.integer 7, .text "v"]] 0 [.integer 7, .text "v"] 7 1 .serializable
      [{ table := none, name := "*" }] none [] []
      (by decide) (by decide) (by decide) (by decide) (by decide)).2
    [((0 : Nat), [DataValue.integer 7, DataValue.text "v"])] (by decide)

/-- A version in some chain belongs to some stored pair. -/
theorem mem_chainOf {m : MVCCState} {key : String} {v : MVCCVersion}
    (h : v ∈ m.chainOf key) : ∃ p ∈ m.versions, v ∈ p.2 := by
  unfold MVCCState.chainOf at h
  cases hf : List.find? (fun p => p.1 = key) m.versions with
  | none => rw [hf] at h; simp at h
  | some pr =>
    rw [hf] at h
    simp only [Option.map_some', Option.getD_some] at h
    exact ⟨pr, List.mem_of_find?_eq_some hf, h⟩

/-- Under `mvccNoForeignUncommitted`, an MVCC write by the transaction
succeeds and appends exactly the expected uncommitted version. -/
theorem mvcc_write_of_noForeign {m : MVCCState} {txId : Nat} {key : String}
    {data : List DataValue} (h : mvccNoForeignUncommitted m txId) :
    m.write txId key data = .ok (m.appendVersion key
      { tx_id := txId, begin_ts := m.readTs txId, end_ts := none
        data := data, committed := false }) := by
  unfold MVCCState.write
  rw [if_neg]
  intro hany
  rw [List.any_eq_true] at hany
  obtain ⟨v, hv, hcond⟩ := hany
  obtain ⟨p, hp, hvp⟩ := mem_chainOf hv
  simp only [Bool.and_eq_true, Bool.not_eq_true', decide_eq_true_eq] at hcond
  rcases h p hp v hvp with hc | hc | hc
  · rw [hcond.1.1] at hc
    cases hc
  · exact hcond.1.2 hc
  · rw [hc] at hcond
    cases hcond.2

/-- Appending a version leaves the read timestamps unchanged. -/
theorem readTs_appendVersion (m : MVCCState) (key : String) (v : MVCCVersion)
    (tx : Nat) : (m.appendVersion key v).readTs tx = m.readTs tx := by
  unfold MVCCState.appendVersion MVCCState.readTs
  split <;> rfl

/-- Appending a version leaves the active set unchanged. -/
theorem is_active_appendVersion (m : MVCCState) (key : String)
    (v : MVCCVersion) (tx : Nat) :
    (m.appendVersion key v).is_active tx = m.is_active tx := by
  unfold MVCCState.appendVersion MVCCState.is_active
  split <;> rfl

/-- Appending the transaction's own version preserves
`mvccNoForeignUncommitted`. -/
theorem noForeign_appendVersion {m : MVCCState} {txId : Nat} {key : String}
    {v : MVCCVersion} (hv : v.tx_id = txId)
    (h : mvccNoForeignUncommitted m txId) :
    mvccNoForeignUncommitted (m.appendVersion key v) txId := by
  intro p hp w hw
  rw [is_active_appendVersion]
  unfold MVCCState.appendVersion at hp
  split at hp
  · simp only at hp
    obtain ⟨q, hq, hpe⟩ := List.mem_map.mp hp
    by_cases hk : q.1 = key
    · rw [if_pos hk] at hpe
      subst hpe
      rcases List.mem_append.mp hw with hw1 | hw2
      · exact h q hq w hw1
      · rw [List.mem_singleton] at hw2
        subst hw2
        exact Or.inr (Or.inl hv)
    · rw [if_neg hk] at hpe
      subst hpe
      exact h q hq w hw
  · rcases List.mem_append.mp hp with hp1 | hp2
    · exact h p hp1 w hw
    · rw [List.mem_singleton] at hp2
      subst hp2
      rw [List.mem_singleton] at hw
      subst hw
      exact Or.inr (Or.inl hv)

/-- The UPDATE row loop under `mvccNoForeignUncommitted`: it never fails, it
counts exactly the matched rows, and it appends exactly the expected versions
in row order. -/
theorem updateRows_spec (txId : Nat) (tname : String)
    (updates : List (String × DataValue)) (wc : Option WhereType)
    (schema : List ColumnDef) :
    ∀ (rows : List (List DataValue)) (m : MVCCState) (count : Nat),
    mvccNoForeignUncommitted m txId →
    updateRows txId tname updates wc schema m count rows =
      .ok (writeAllMatched txId tname schema updates m
             (rows.filter (updMatches wc schema tname)),
           count + (rows.filter (updMatches wc schema tname)).length) := by
  intro rows
  induction rows with
  | nil =>
    intro m count h
    simp [updateRows, writeAllMatched]
  | cons row rest ih =>
    intro m count h
    by_cases hmatch : updMatches wc schema tname row = true
    · have hint : rowHasIntPk row = true := by
        simp only [updMatches, Bool.and_eq_true] at hmatch
        exact hmatch.1
      have hwtrue : whereOk wc row schema tname = true := by
        simp only [updMatches, Bool.and_eq_true] at hmatch
        exact hmatch.2
      obtain ⟨n, hn⟩ : ∃ n, row.head? = some (.integer n) := by
        unfold rowHasIntPk at hint
        cases hh : row.head? with
        | none => rw [hh] at hint; simp at hint
        | some dv =>
          cases dv with
          | integer k => exact ⟨k, rfl⟩
          | text s => rw [hh] at hint; simp at hint
          | boolean b => rw [hh] at hint; simp at hint
      have hpk : rowPk row = toString n := by simp [rowPk, hn]
      simp only [updateRows]
      rw [hn]
      dsimp only
      rw [hwtrue, if_pos rfl]
      rw [mvcc_write_of_noForeign h]
      dsimp only
      rw [ih _ (count + 1) (noForeign_appendVersion rfl h)]
      rw [List.filter_cons_of_pos hmatch]
      simp only [writeAllMatched, List.foldl_cons, updVersion, hpk,
        List.length_cons]
      congr 2
      omega
    · rw [List.filter_cons_of_neg (by simpa using hmatch)]
      simp only [updateRows]
      cases hh : row.head? with
      | none =>
        dsimp only
        exact ih m count h
      | some dv =>
        cases dv with
        | integer k =>
          have hwfalse : whereOk wc row schema tname = false := by
            have hint : rowHasIntPk row = true := by
              unfold rowHasIntPk
              rw [hh]
            rcases Bool.eq_false_or_eq_true (whereOk wc row schema tname)
              with ht | hf
            · exact absurd (by simp [updMatches, hint, ht]) hmatch
            · exact hf
          dsimp only
          rw [hwfalse, if_neg Bool.false_ne_true]
          exact ih m count h
        | text s =>
          dsimp only
          exact ih m count h
        | boolean b =>
          dsimp only
          exact ih m count h

/-- C7: when no other live transaction holds an uncommitted version (so no
write conflicts arise), an UPDATE returns `Update n` where `n` is exactly the
number of base rows whose first column is an integer and that satisfy the
WHERE clause (all integer-keyed rows when no WHERE is given); for each such
row, in order, exactly one new uncommitted MVCC version is appended under the
key `table/0/pk` holding the row with the SET columns replaced, and rows with
a non-integer first column are skipped without error. -/
theorem C7_update_counts_and_versions (mvcc : MVCCState) (txId : Nat)
    (storage : TableStorage) (tname : String)
    (updates : List (String × DataValue)) (wc : Option WhereType)
    (schema : List ColumnDef) (rows : List (List DataValue))
    (hst : storage.get_table_ref tname = some (schema, rows))
    (hok : mvccNoForeignUncommitted mvcc txId) :
    executeUpdate mvcc txId storage tname updates wc =
      .ok (writeAllMatched txId tname schema updates mvcc
             (rows.filter (updMatches wc schema tname)),
           .update (rows.filter (updMatches wc schema tname)).length) := by
  unfold executeUpdate
  rw [hst]
  dsimp only
  rw [updateRows_spec txId tname updates wc schema rows mvcc 0 hok]
  simp [Except.map]

/-- C7 witness: the theorem applied to the concrete mixed-key table with no
WHERE clause; both integer-keyed rows are counted and written, the text-keyed
row is skipped. -/
theorem C7_witness :
    executeUpdate c7Mvcc 1 c7Storage "users" [("name", .text "z")] none =
      .ok (writeAllMatched 1 "users" c7Schema [("name", .text "z")] c7Mvcc
             (c7Rows.filter (updMatches none c7Schema "users")),
           .update (c7Rows.filter (updMatches none c7Schema "users")).length) :=
  C7_update_counts_and_versions c7Mvcc 1 c7Storage "users"
    [("name", .text "z")] none c7Schema c7Rows (by decide)
    (by intro p hp v hv
        simp [c7Mvcc, emptyMVCC, MVCCState.begin_transaction] at hp)

/-- Appending a WAL entry extends `hasCommitEntry` by the new entry's test. -/
theorem hasCommitEntry_append (w : WALState) (e : WALEntry) (id : Nat) :
    hasCommitEntry { w with entries := w.entries ++ [e] } id =
      (hasCommitEntry w id ||
        (e.operation == WALOperation.commit && e.transaction_id == id)) := by
  simp [hasCommitEntry, List.any_append]

/-- A freshly appended Commit entry is reported for its own transaction. -/
theorem hasCommitEntry_append_self (w : WALState) (id : Nat) :
    hasCommitEntry { w with entries := w.entries ++
      [{ transaction_id := id, operation := .commit, table_name := ""
         data := [] }] } id = true := by
  simp [hasCommitEntry, List.any_append]

/-- A Commit entry for one transaction does not affect the report for
another. -/
theorem hasCommitEntry_append_other (w : WALState) (id id2 : Nat)
    (hne : id ≠ id2) :
    hasCommitEntry { w with entries := w.entries ++
      [{ transaction_id := id, operation := .commit, table_name := ""
         data := [] }] } id2 = hasCommitEntry w id2 := by
  simp [hasCommitEntry, List.any_append, hne]

/-- A transaction found in the active map is a member under its id. -/
theorem findActive_mem {st : TMState} {id : Nat} {tx : Transaction}
    (h : st.findActive id = some tx) : (id, tx) ∈ st.active_transactions := by
  unfold TMState.findActive at h
  cases hf : st.active_transactions.find? (fun p => p.1 = id) with
  | none => rw [hf] at h; simp at h
  | some pr =>
    rw [hf] at h
    have h2 : pr.2 = tx := by simpa using h
    have hid : pr.1 = id := by simpa using List.find?_some hf
    have hmem := List.mem_of_find?_eq_some hf
    obtain ⟨a, b⟩ := pr
    dsimp at h2 hid
    subst h2
    subst hid
    exact hmem

/-- Removing a transaction from the active map preserves the invariant. -/
theorem TMInv_removeActive (st : TMState) (id : Nat) (h : TMInv st) :
    TMInv (st.removeActive id) := by
  obtain ⟨h1, h2, h3, h4, h5, h6, h7⟩ := h
  exact ⟨h1, h2,
    fun p hp => h3 p (List.mem_of_mem_filter hp),
    h4,
    fun p hp => h5 p (List.mem_of_mem_filter hp),
    fun id2 hid2 p hp => h6 id2 hid2 p (List.mem_of_mem_filter hp),
    h7⟩

/-- Appending a Commit entry for an active transaction and removing it from
the active map preserves the invariant, whether or not the transaction is
recorded as committed. -/
theorem walInv_commit_entry {next : Nat} {active : List (Nat × Transaction)}
    {wal : WALState} {committed rolled : List Nat} {id : Nat}
    {tx : Transaction} (hmem : (id, tx) ∈ active)
    (h : walInv next active wal committed rolled) (committed2 : List Nat)
    (hc : committed2 = committed ∨ committed2 = id :: committed) :
    walInv next (active.filter (fun p => p.1 ≠ id))
      { wal with entries := wal.entries ++
          [{ transaction_id := id, operation := .commit, table_name := ""
             data := [] }] }
      committed2 rolled := by
  obtain ⟨h1, h2, h3, h4, h5, h6, h7⟩ := h
  have hidlt : id < next := h5 _ hmem
  refine ⟨?_, ?_, ?_, ?_, ?_, ?_, h7⟩
  · intro id2 hid2
    rcases hc with rfl | rfl
    · rw [hasCommitEntry_append, h1 id2 hid2]
      rfl
    · rcases List.mem_cons.mp hid2 with rfl | hold
      · exact hasCommitEntry_append_self wal id2
      · rw [hasCommitEntry_append, h1 id2 hold]
        rfl
  · intro id2 hid2
    have hne : id ≠ id2 := h6 id2 hid2 (id, tx) hmem
    rw [hasCommitEntry_append_other wal id id2 hne]
    exact h2 id2 hid2
  · intro p hp
    have hpne : p.1 ≠ id := by simpa using List.of_mem_filter hp
    rw [hasCommitEntry_append_other wal id p.1 (Ne.symm hpne)]
    exact h3 p (List.mem_of_mem_filter hp)
  · intro id2 hce
    by_cases hid : id2 = id
    · subst hid
      exact hidlt
    · rw [hasCommitEntry_append_other wal id id2 (fun he => hid he.symm)] at hce
      exact h4 id2 hce
  · intro p hp
    exact h5 p (List.mem_of_mem_filter hp)
  · intro id2 hid2 p hp
    exact h6 id2 hid2 p (List.mem_of_mem_filter hp)

/-- `begin_transaction` preserves the invariant. -/
theorem TMInv_begin (st : TMState) (iso : IsolationLevel) (h : TMInv st) :
    TMInv (begin_transaction st iso).1 := by
  obtain ⟨h1, h2, h3, h4, h5, h6, h7⟩ := h
  unfold begin_transaction TMInv walInv
  dsimp only
  refine ⟨h1, h2, ?_, ?_, ?_, ?_, ?_⟩
  · intro p hp
    rcases List.mem_cons.mp hp with rfl | hp2
    · cases hc : hasCommitEntry st.wal st.nextId with
      | false => rfl
      | true => exact absurd (h4 _ hc) (Nat.lt_irrefl _)
    · exact h3 p hp2
  · intro id2 hid2
    exact Nat.lt_succ_of_lt (h4 id2 hid2)
  · intro p hp
    rcases List.mem_cons.mp hp with rfl | hp2
    · exact Nat.lt_succ_self _
    · exact Nat.lt_succ_of_lt (h5 p hp2)
  · intro id2 hid2 p hp
    rcases List.mem_cons.mp hp with rfl | hp2
    · exact (h7 id2 hid2).ne'
    · exact h6 id2 hid2 p hp2
  · intro id2 hid2
    exact Nat.lt_succ_of_lt (h7 id2 hid2)

/-- `rollback_transaction` preserves the invariant. -/
theorem TMInv_rollback (st : TMState) (id : Nat) (h : TMInv st) :
    TMInv (rollback_transaction st id).1 := by
  unfold rollback_transaction
  cases hf : st.findActive id with
  | none => exact h
  | some tx =>
    have hmem := findActive_mem hf
    obtain ⟨h1, h2, h3, h4, h5, h6, h7⟩ := h
    dsimp only [TMState.removeActive, releaseTransactionLocks,
      deadlockRemoveTransaction, clearTransactionSavepoints]
    refine ⟨h1, ?_, ?_, h4, ?_, ?_, ?_⟩
    · intro id2 hid2
      rcases List.mem_cons.mp hid2 with rfl | hold
      · exact h3 _ hmem
      · exact h2 id2 hold
    · intro p hp
      exact h3 p (List.mem_of_mem_filter hp)
    · intro p hp
      exact h5 p (List.mem_of_mem_filter hp)
    · intro id2 hid2 p hp
      rcases List.mem_cons.mp hid2 with rfl | hold
      · simpa using List.of_mem_filter hp
      · exact h6 id2 hold p (List.mem_of_mem_filter hp)
    · intro id2 hid2
      rcases List.mem_cons.mp hid2 with rfl | hold
      · exact h5 _ hmem
      · exact h7 id2 hold

/-- `commit_transaction` preserves the invariant, in all of its branches:
absent transaction, inactive transaction, WAL failure, MVCC failure (where
the inner rollback call fails and the appended Commit entry remains for a
transaction that is in neither lifecycle set), and success. -/
theorem TMInv_commit (st : TMState) (id : Nat) (h : TMInv st) :
    TMInv (commit_transaction st id).1 := by
  unfold commit_transaction
  cases hf : st.findActive id with
  | none => exact h
  | some tx =>
    have hmem := findActive_mem hf
    dsimp only
    split
    · exact TMInv_removeActive st id h
    · cases hw : WALState.append_entry (st.removeActive id).wal
          { transaction_id := id, operation := .commit, table_name := ""
            data := [] } with
      | error e => exact TMInv_removeActive st id h
      | ok wal2 =>
        have hw2 : wal2 = { st.wal with entries := st.wal.entries ++
            [{ transaction_id := id, operation := .commit, table_name := ""
               data := [] }] } := by
          unfold WALState.append_entry at hw
          split at hw
          · exact (Except.ok.inj hw).symm
          · cases hw
        have hcore : walInv st.nextId
            (st.active_transactions.filter (fun p => p.1 ≠ id)) wal2
            st.committedIds st.rolledBackIds := by
          rw [hw2]
          exact walInv_commit_entry hmem h st.committedIds (Or.inl rfl)
        have hcoreC : walInv st.nextId
            (st.active_transactions.filter (fun p => p.1 ≠ id)) wal2
            (id :: st.committedIds) st.rolledBackIds := by
          rw [hw2]
          exact walInv_commit_entry hmem h _ (Or.inr rfl)
        cases hm : MVCCState.commit (st.removeActive id).mvcc id with
        | error e =>
          dsimp only
          split
          · exact TMInv_rollback _ id hcore
          · exact TMInv_rollback _ id hcore
        | ok mvcc2 =>
          dsimp only [releaseTransactionLocks, deadlockRemoveTransaction]
          exact hcoreC

/-- Every lifecycle event preserves the invariant. -/
theorem TMInv_applyEvent (st : TMState) (ev : TMEvent) (h : TMInv st) :
    TMInv (applyEvent st ev) := by
  cases ev with
  | beginTx iso => exact TMInv_begin st iso h
  | commitTx id => exact TMInv_commit st id h
  | rollbackTx id => exact TMInv_rollback st id h

/-- The invariant holds along any run. -/
theorem TMInv_runEvents (events : List TMEvent) :
    ∀ (st : TMState), TMInv st → TMInv (runEvents st events) := by
  induction events with
  | nil => intro st h; exact h
  | cons ev rest ih =>
    intro st h
    exact ih _ (TMInv_applyEvent st ev h)

/-- The invariant holds initially. -/
theorem TMInv_init (tables : TableStorage) (ioOk : Bool) :
    TMInv (initState tables ioOk) := by
  refine ⟨?_, ?_, ?_, ?_, ?_, ?_, ?_⟩ <;> simp [initState, hasCommitEntry]

/-- C4: at every point of every run of begin/commit/rollback events from the
initial state, the WAL contains a Commit entry for every transaction that
committed and no Commit entry for any transaction that was rolled back. -/
theorem C4_wal_commit_entries (tables : TableStorage) (ioOk : Bool)
    (events : List TMEvent) :
    (∀ id ∈ (runEvents (initState tables ioOk) events).committedIds,
      hasCommitEntry (runEvents (initState tables ioOk) events).wal id
        = true) ∧
    (∀ id ∈ (runEvents (initState tables ioOk) events).rolledBackIds,
      hasCommitEntry (runEvents (initState tables ioOk) events).wal id
        = false) := by
  have h := TMInv_runEvents events (initState tables ioOk)
    (TMInv_init tables ioOk)
  exact ⟨h.1, h.2.1⟩

/-- C4 witness: on the concrete run, the committed transaction 1 has a Commit
entry and the rolled-back transaction 2 has none. -/
theorem C4_witness :
    hasCommitEntry (runEvents (initState [] true) c4Events).wal 1 = true ∧
    hasCommitEntry (runEvents (initState [] true) c4Events).wal 2 = false :=
  ⟨(C4_wal_commit_entries [] true c4Events).1 1 (by decide),
   (C4_wal_commit_entries [] true c4Events).2 2 (by decide)⟩

end Reef
